import Mathlib

/-!
Shallow embedding of `tdms2h5.py` (BlueQuartzSoftware/TDMSData_CDME), the
TDMS → HDF5 slice converter, together with proofs checking the claims of the
specification against the code.

Modelling conventions:
* A TDMS input file is a structure holding the filename stem (as a character
  list), the extension (without the leading dot), the file-level property
  dictionary and the list of groups; each group has a name, a property
  dictionary and named numeric channels.
* Python dictionaries (`tdmsFile.properties`, `group.properties`, the
  `h5_files` registry) are insertion-ordered association lists; HDF5
  attribute sets are association lists where assignment overwrites the value
  stored under an existing key.
* Numeric channel data is modelled over `ℚ` (numpy floating point arithmetic
  is modelled exactly); the `dtype=np.float32` argument passed for the axis
  datasets is recorded as a `DType` tag on the dataset.
* Slice nodes are keyed by the natural number `slice_index`; the code keys
  them by `str(slice_index)`, and `Nat.repr` is injective, so the keying is
  equivalent.
* Exceptions raised by the code (`KeyError` on a missing dict/attr/channel
  key, h5py's error on `create_group` for an existing name) are modelled by
  the `RunError` type; a run returns its final state (the writes performed
  before the error persist, as they do on disk) together with an optional
  error.
* `re`-based matching: the code compiles `f'{prefix}(\d+)'` and uses
  `.search` on the stem; the prefix fragment is modelled as a literal string
  (the documented usage, e.g. `Slice`), so a search is: find the leftmost
  position where the prefix occurs followed by at least one digit and capture
  the maximal digit run.  The `--groups` patterns are used via
  `re.match(pattern, name)` which, for literal patterns, is a prefix test.
* `Path.glob('*.[Tt][Dd][Mm][Ss]')` keeps exactly the files whose 4-character
  extension lowercases to `tdms`; `pathlib` glob on a nonexistent directory
  yields no entries (its selector returns an empty iterator when the parent
  is not a directory), so a missing input directory is modelled as `none`
  and produces an empty file listing.
-/

namespace Tdms2h5

/-- Values that can appear in TDMS property bags and HDF5 attribute sets:
64-bit integers, floats (modelled exactly over `ℚ`), strings and
`np.datetime64` timestamps carried as microseconds since the epoch. -/
inductive TdmsValue where
  | int (n : Int)
  | float (q : ℚ)
  | str (s : String)
  | timestamp (us : Int)
deriving DecidableEq, Repr

/-- An insertion-ordered string-keyed dictionary, as read from a TDMS file. -/
abbrev PropertyBag := List (String × TdmsValue)

/-- Dictionary lookup on an association list (first binding wins, matching
Python dict semantics where keys are unique). -/
def alookup {κ β : Type} [DecidableEq κ] (k : κ) : List (κ × β) → Option β
  | [] => none
  | (k', v) :: rest => if k' = k then some v else alookup k rest

/-- Assignment `d[k] = v` on an association list: overwrite the binding if
the key is present (keeping its position), else append a new binding. -/
def aset {κ β : Type} [DecidableEq κ] (k : κ) (v : β) : List (κ × β) → List (κ × β)
  | [] => [(k, v)]
  | (k', v') :: rest => if k' = k then (k, v) :: rest else (k', v') :: aset k v rest

/-- Left-biased choice on options (`x if x is not None else y`). -/
def optOr {α : Type} (x y : Option α) : Option α :=
  match x with
  | some v => some v
  | none => y

/-! ## Timestamp serialization

The code serializes `np.datetime64` attribute values with
`np.datetime_as_string(value, unit='us', timezone='UTC')`: an ISO-8601 date
and time at microsecond precision with a trailing `Z` UTC designator.  The
embedding reimplements that rendering (proleptic Gregorian calendar). -/

/-- Left-pad the decimal rendering of `n` with zeros to width `w`. -/
def padNum (w : Nat) (n : Nat) : String :=
  let s := toString n
  String.mk (List.replicate (w - s.length) '0') ++ s

/-- Convert a day count relative to 1970-01-01 to a `(year, month, day)`
civil date (standard era-based conversion for the proleptic Gregorian
calendar). -/
def civilFromDays (z : Int) : Int × Nat × Nat :=
  let z' := z + 719468
  let era := Int.fdiv z' 146097
  let doe := (z' - era * 146097).toNat
  let yoe := (doe - doe / 1460 + doe / 36524 - doe / 146096) / 365
  let doy := doe - (365 * yoe + yoe / 4 - yoe / 100)
  let mp := (5 * doy + 2) / 153
  let d := doy - (153 * mp + 2) / 5 + 1
  let m := if mp < 10 then mp + 3 else mp - 9
  ((yoe : Int) + era * 400 + (if m ≤ 2 then 1 else 0), m, d)

/-- Render an integer year, padding the absolute value to four digits. -/
def yearString (y : Int) : String :=
  if y < 0 then "-" ++ padNum 4 y.natAbs else padNum 4 y.natAbs

/-- Embedding of `np.datetime_as_string(value, unit='us', timezone='UTC')`
for a timestamp of `us` microseconds since the 1970 epoch. -/
def datetimeAsStringUsUTC (us : Int) : String :=
  let day := Int.fdiv us 86400000000
  let rem := (us - day * 86400000000).toNat
  let (y, mo, d) := civilFromDays day
  let secOfDay := rem / 1000000
  let micro := rem % 1000000
  yearString y ++ "-" ++ padNum 2 mo ++ "-" ++ padNum 2 d ++ "T" ++
    padNum 2 (secOfDay / 3600) ++ ":" ++ padNum 2 (secOfDay % 3600 / 60) ++ ":" ++
    padNum 2 (secOfDay % 60) ++ "." ++ padNum 6 micro ++ "Z"

/-! ## The output data model (h5py side) -/

/-- Element type recorded for a dataset: `native` when `create_dataset` is
called without a `dtype` (the input array's own type is kept), `float32`
when the code passes `dtype=np.float32`. -/
inductive DType where
  | native
  | float32
deriving DecidableEq, Repr

/-- One HDF5 dataset: its 1-D data, element type tag and attached
attributes. -/
structure Dataset where
  data : List ℚ
  dtype : DType
  attrs : List (String × TdmsValue)
deriving DecidableEq, Repr

/-- One per-slice child group of a container's `TDMSData` subtree: merged
layer/part attributes plus the channel datasets in creation order. -/
structure SliceNode where
  attrs : List (String × TdmsValue)
  datasets : List (String × Dataset)
deriving DecidableEq, Repr

/-- One output `.h5` container: its path, top-level attributes, the
`TDMSData` subtree (attributes plus slice nodes keyed by slice index), and
the top-level `Index` dataset with its attributes once finalization has
written it. -/
structure Container where
  filePath : String
  attrs : List (String × TdmsValue)
  tdmsDataAttrs : List (String × TdmsValue)
  nodes : List (Nat × SliceNode)
  index : Option (List (Nat × Int × Nat))
  indexAttrs : List (String × TdmsValue)
deriving DecidableEq, Repr

/-! ## The input data model (nptdms side) -/

/-- One TDMS group: name, per-group (part-level) properties and named
channels. -/
structure TdmsGroup where
  name : String
  properties : PropertyBag
  channels : List (String × List ℚ)
deriving DecidableEq, Repr

/-- One TDMS input file: filename stem and extension (without the dot),
file-level (layer) properties and the contained groups. -/
structure TdmsFileData where
  stem : List Char
  ext : List Char
  properties : PropertyBag
  groups : List TdmsGroup
deriving DecidableEq, Repr

/-- The inputs of `tdms2h5` that the claims quantify over.  The offsets are
the `--area-offset`, `--intensity-offset` and `--laser-offset` CLI values
(documented non-negative, default 0), `pre` is the filename prefix regex
fragment (modelled literal) and `groups` the optional `--groups` patterns. -/
structure Config where
  outputDir : String
  pre : List Char
  areaOffset : Nat
  intensityOffset : Nat
  laserOffset : Nat
  groups : List String
deriving DecidableEq, Repr

/-- Errors a run can raise: `KeyError` on a missing dictionary key, property,
channel, slice node or attribute, a numpy type failure on a non-numeric
value, and h5py's error when `create_group` is called for an existing
name. -/
inductive RunError where
  | missingProperty (k : String)
  | missingChannel (k : String)
  | missingNode (i : Nat)
  | missingAttr (k : String)
  | badAttrType (k : String)
  | duplicateNode (i : Nat)
deriving DecidableEq, Repr

/-- The spec's `DataError` class (§7): malformed or missing expected
channel/attribute data in a source slice or at finalization. -/
def RunError.isDataError : RunError → Bool
  | .missingProperty _ => true
  | .missingChannel _ => true
  | .missingNode _ => true
  | .missingAttr _ => true
  | .badAttrType _ => true
  | .duplicateNode _ => false

/-- The mutable state of a run: the `h5_files` registry in insertion order
and the global `slice_indices` list. -/
structure RunState where
  h5Files : List (String × Container)
  sliceIndices : List Nat
deriving DecidableEq, Repr

/-! ## Slice discovery (lines 41-55) -/

/-- The `'*.[Tt][Dd][Mm][Ss]'` glob: the extension is exactly four characters
which lowercase to `tdms`. -/
def extMatchesTdms (ext : List Char) : Bool :=
  ext.map Char.toLower == ['t', 'd', 'm', 's']

/-- Whether `pre` is an initial segment of `s`. -/
def isPrefixList : List Char → List Char → Bool
  | [], _ => true
  | _ :: _, [] => false
  | a :: as, b :: bs => a == b && isPrefixList as bs

/-- Value of a decimal digit run, as computed by Python's `int()`. -/
def digitsToNat (ds : List Char) : Nat :=
  ds.foldl (fun a c => 10 * a + (c.toNat - 48)) 0

/-- Attempt of the regex `f'{prefix}(\d+)'` anchored at the head of `s`:
succeed when `pre` occurs at the start and is followed by at least one
digit, capturing the maximal digit run. -/
def matchPrefixDigitsAt (pre s : List Char) : Option Nat :=
  if isPrefixList pre s then
    let ds := (s.drop pre.length).takeWhile Char.isDigit
    if ds.isEmpty then none else some (digitsToNat ds)
  else none

/-- `re.search` of `f'{prefix}(\d+)'` in a stem: try each start position
left to right. -/
def searchPrefixDigits (pre : List Char) : List Char → Option Nat
  | [] => none
  | c :: cs =>
    match matchPrefixDigitsAt pre (c :: cs) with
    | some n => some n
    | none => searchPrefixDigits pre cs

/-- The discovery pass (glob for `*.tdms` case-insensitively, then keep the
files whose stem contains `prefix` followed by digits, pairing each with the
captured slice index). -/
def discoverSlices (cfg : Config) (files : List TdmsFileData) : List (TdmsFileData × Nat) :=
  files.filterMap fun f =>
    if extMatchesTdms f.ext then
      (searchPrefixDigits cfg.pre f.stem).map fun i => (f, i)
    else none

/-! ## Metadata normalization (`_write_tdms_properties`, lines 22-31) -/

/-- Replacement-table renaming: a key present in the table is written under
its replacement, any other key is kept unchanged. -/
def renameKey (repl : List (String × String)) (k : String) : String :=
  match alookup k repl with
  | some k' => k'
  | none => k

/-- Serialization applied to each property value: `np.datetime64` values are
rendered as microsecond-precision UTC text, all other values are written
as-is. -/
def serializeValue : TdmsValue → TdmsValue
  | .timestamp us => .str (datetimeAsStringUsUTC us)
  | v => v

/-- `_write_tdms_properties`: write every property of `bag` into the
attribute set `attrs`, renaming via `repl`. -/
def writeTdmsProperties (attrs : List (String × TdmsValue)) (bag : PropertyBag)
    (repl : List (String × String)) : List (String × TdmsValue) :=
  bag.foldl (fun a kv => aset (renameKey repl kv.1) (serializeValue kv.2) a) attrs

/-- The layer-level replacement table (line 76). -/
def layerReplacements : List (String × String) :=
  [("StartTime", "LayerStartTime"), ("EndTime", "LayerEndTime")]

/-- The part-level replacement table (line 82). -/
def partReplacements : List (String × String) :=
  [("StartTime", "PartStartTime"), ("EndTime", "PartEndTime")]

/-- The attribute set attached to a slice node: the layer bag is written
first, then the part bag on top of it (lines 80 and 86). -/
def mergedSliceAttrs (fileProps groupProps : PropertyBag) : List (String × TdmsValue) :=
  writeTdmsProperties (writeTdmsProperties [] fileProps layerReplacements)
    groupProps partReplacements

/-! ## Channel alignment and slice-node construction (lines 88-114) -/

/-- The Python slice `data[off : len(data) - off]` for a non-negative
offset. -/
def sliceTrim (off : Nat) (xs : List ℚ) : List ℚ :=
  (xs.drop off).take (xs.length - 2 * off)

/-- Build the slice node for one group of one file: write the merged
attributes, then create the channel datasets in source order (`LaserTTL`
trimmed by the laser offset, `Area` and `Intensity` by their offsets,
`Parameter` untrimmed, then the two axes scaled by the bitgains, stored as
float32 with a `μm` unit attribute).  A missing channel raises `KeyError`;
datasets created before the failing lookup remain in the node, as they do on
disk. -/
def mkSliceNode (fileProps : PropertyBag) (cfg : Config) (bg1 bg2 : ℚ)
    (g : TdmsGroup) : SliceNode × Option RunError :=
  let node : SliceNode := ⟨mergedSliceAttrs fileProps g.properties, []⟩
  match alookup "LaserTTL" g.channels with
  | none => (node, some (.missingChannel "LaserTTL"))
  | some laser =>
    let node := { node with datasets :=
      node.datasets ++ [("LaserTTL", ⟨sliceTrim cfg.laserOffset laser, .native, []⟩)] }
    match alookup "Area" g.channels with
    | none => (node, some (.missingChannel "Area"))
    | some area =>
      let node := { node with datasets :=
        node.datasets ++ [("Area", ⟨sliceTrim cfg.areaOffset area, .native, []⟩)] }
      match alookup "Intensity" g.channels with
      | none => (node, some (.missingChannel "Intensity"))
      | some intensity =>
        let node := { node with datasets :=
          node.datasets ++ [("Intensity", ⟨sliceTrim cfg.intensityOffset intensity, .native, []⟩)] }
        match alookup "Parameter" g.channels with
        | none => (node, some (.missingChannel "Parameter"))
        | some param =>
          let node := { node with datasets :=
            node.datasets ++ [("Parameter", ⟨param, .native, []⟩)] }
          match alookup "X-Axis" g.channels with
          | none => (node, some (.missingChannel "X-Axis"))
          | some xs =>
            let node := { node with datasets :=
              node.datasets ++ [("X-Axis", ⟨xs.map (· / bg1), .float32, [("Units", .str "μm")]⟩)] }
            match alookup "Y-Axis" g.channels with
            | none => (node, some (.missingChannel "Y-Axis"))
            | some ys =>
              ({ node with datasets :=
                node.datasets ++ [("Y-Axis", ⟨ys.map (· / bg2), .float32, [("Units", .str "μm")]⟩)] },
               none)

/-! ## Group routing and the main pass (lines 62-114) -/

/-- The `--groups` filter (line 63): with no patterns every group is
converted; otherwise the group's name must `re.match` one of the patterns
(for a literal pattern: the pattern is a prefix of the name). -/
def passesFilter (pats : List String) (name : String) : Bool :=
  pats.isEmpty || pats.any fun p => p.isPrefixOf name

/-- The container created on first encounter of a group name (lines 66-72):
file `<output_dir>/<name>.h5` with the `Version` attribute set to 3 and an
empty `TDMSData` subtree carrying the `TDMS_GroupName` attribute. -/
def newContainer (cfg : Config) (name : String) : Container :=
  ⟨cfg.outputDir ++ "/" ++ name ++ ".h5",
   [("Version", .int 3)], [("TDMS_GroupName", .str name)], [], none, []⟩

/-- Lazily create the output container for a group name (lines 66-73): on
first encounter register a `newContainer`; afterwards return the registered
handle. -/
def getOrCreateContainer (cfg : Config) (st : RunState) (name : String) :
    Container × RunState :=
  match alookup name st.h5Files with
  | some c => (c, st)
  | none =>
    (newContainer cfg name,
     { st with h5Files := st.h5Files ++ [(name, newContainer cfg name)] })

/-- Process one group of one file: apply the `--groups` filter, route to the
(possibly new) container, create the slice node keyed by the slice index
(h5py raises when the name already exists), then write attributes and
datasets. -/
def processGroup (cfg : Config) (fileProps : PropertyBag) (bg1 bg2 : ℚ) (idx : Nat)
    (st : RunState) (g : TdmsGroup) : RunState × Option RunError :=
  if passesFilter cfg.groups g.name then
    match getOrCreateContainer cfg st g.name with
    | (c, st') =>
      match alookup idx c.nodes with
      | some _ => (st', some (.duplicateNode idx))
      | none =>
        match mkSliceNode fileProps cfg bg1 bg2 g with
        | (node, err) =>
          ({ st' with
              h5Files := aset g.name { c with nodes := c.nodes ++ [(idx, node)] } st'.h5Files },
           err)
  else (st, none)

/-- Process the groups of one file in order, stopping at the first error. -/
def processGroups (cfg : Config) (fileProps : PropertyBag) (bg1 bg2 : ℚ) (idx : Nat) :
    RunState → List TdmsGroup → RunState × Option RunError
  | st, [] => (st, none)
  | st, g :: gs =>
    match processGroup cfg fileProps bg1 bg2 idx st g with
    | (st', none) => processGroups cfg fileProps bg1 bg2 idx st' gs
    | (st', some e) => (st', some e)

/-- Read `Bitgain OS 1` and `Bitgain OS 2` from the file properties
(lines 58-59); a missing key raises `KeyError` and a non-numeric value fails
when used as a divisor. -/
def fileBitgains (f : TdmsFileData) : Except RunError (ℚ × ℚ) :=
  match alookup "Bitgain OS 1" f.properties with
  | none => .error (.missingProperty "Bitgain OS 1")
  | some v1 =>
    match alookup "Bitgain OS 2" f.properties with
    | none => .error (.missingProperty "Bitgain OS 2")
    | some v2 =>
      match v1, v2 with
      | .int n1, .int n2 => .ok ((n1 : ℚ), (n2 : ℚ))
      | .int n1, .float q2 => .ok ((n1 : ℚ), q2)
      | .float q1, .int n2 => .ok (q1, (n2 : ℚ))
      | .float q1, .float q2 => .ok (q1, q2)
      | _, _ => .error (.badAttrType "Bitgain OS")

/-- Process one discovered file: append its slice index to the global list
(line 55), read the bitgains, then convert each group. -/
def processFile (cfg : Config) (st : RunState) (f : TdmsFileData) (idx : Nat) :
    RunState × Option RunError :=
  let st := { st with sliceIndices := st.sliceIndices ++ [idx] }
  match fileBitgains f with
  | .error e => (st, some e)
  | .ok (bg1, bg2) => processGroups cfg f.properties bg1 bg2 idx st f.groups

/-- The main conversion loop over the discovered slices, stopping at the
first error (an exception aborts the run; writes made so far persist). -/
def processSlices (cfg : Config) :
    RunState → List (TdmsFileData × Nat) → RunState × Option RunError
  | st, [] => (st, none)
  | st, (f, i) :: rest =>
    match processFile cfg st f i with
    | (st', none) => processSlices cfg st' rest
    | (st', some e) => (st', some e)

/-! ## Index finalization (lines 118-129) -/

/-- Read the `layerThickness` attribute of a slice node as the finalizer
does when storing it into the `int64` index array: a missing key raises
`KeyError`, an integer is stored as-is, a float is truncated toward zero by
the int64 cast, any other value fails. -/
def readLayerThickness (n : SliceNode) : Except RunError Int :=
  match alookup "layerThickness" n.attrs with
  | none => .error (.missingAttr "layerThickness")
  | some (.int v) => .ok v
  | some (.float q) => .ok (Int.tdiv q.num (q.den : Int))
  | some _ => .error (.badAttrType "layerThickness")

/-- Build the rows of the `Index` dataset for one container from the sorted
global slice-index list: for each index, look up that slice node (a missing
node raises `KeyError`), read `layerThickness`, and take the element count
of the node's `X-Axis` dataset. -/
def buildIndexRows (c : Container) : List Nat → Except RunError (List (Nat × Int × Nat))
  | [] => .ok []
  | i :: is =>
    match alookup i c.nodes with
    | none => .error (.missingNode i)
    | some n =>
      match readLayerThickness n with
      | .error e => .error e
      | .ok t =>
        match alookup "X-Axis" n.datasets with
        | none => .error (.missingChannel "X-Axis")
        | some d =>
          match buildIndexRows c is with
          | .error e => .error e
          | .ok rows => .ok ((i, t, d.data.length) :: rows)

/-- The column-name attributes attached to the `Index` dataset. -/
def indexColumnAttrs : List (String × TdmsValue) :=
  [("Column0", .str "SliceIndex"), ("Column1", .str "LayerThickness (μm)"),
   ("Column2", .str "NumVertices")]

/-- Finalize one container: on success write the `Index` dataset and its
column attributes; on failure the container is left as it was (the numpy
array under construction is discarded before `create_dataset` runs). -/
def finalizeContainer (idxs : List Nat) (c : Container) : Container × Option RunError :=
  match buildIndexRows c idxs with
  | .error e => (c, some e)
  | .ok rows => ({ c with index := some rows, indexAttrs := indexColumnAttrs }, none)

/-- Finalize every container in registry order, stopping at the first error
(containers finalized before it keep their `Index`). -/
def finalizeContainers (idxs : List Nat) :
    List (String × Container) → List (String × Container) × Option RunError
  | [] => ([], none)
  | (name, c) :: rest =>
    match finalizeContainer idxs c with
    | (c', some e) => ((name, c') :: rest, some e)
    | (c', none) =>
      let (rest', err) := finalizeContainers idxs rest
      ((name, c') :: rest', err)

/-- The whole `tdms2h5` run.  `inputDir` is `none` when the input directory
does not exist (glob then yields no entries).  Returns the final state of
the output containers together with the first error raised, if any. -/
def runTdms2h5 (cfg : Config) (inputDir : Option (List TdmsFileData)) :
    RunState × Option RunError :=
  let files := inputDir.getD []
  let (st, err) := processSlices cfg ⟨[], []⟩ (discoverSlices cfg files)
  match err with
  | some e => (st, some e)
  | none =>
    let sorted := List.insertionSort (· ≤ ·) st.sliceIndices
    let (files', err') := finalizeContainers sorted st.h5Files
    ({ h5Files := files', sliceIndices := sorted }, err')

/-! ## Association-list lemmas -/

theorem alookup_eq_none_iff {κ β : Type} [DecidableEq κ] {k : κ} {l : List (κ × β)} :
    alookup k l = none ↔ ∀ p ∈ l, p.1 ≠ k := by
  induction l with
  | nil => simp [alookup]
  | cons p rest ih =>
    obtain ⟨k', v⟩ := p
    by_cases h : k' = k <;> simp [alookup, h, ih]

theorem alookup_cons_self {κ β : Type} [DecidableEq κ] (k : κ) (v : β)
    (l : List (κ × β)) : alookup k ((k, v) :: l) = some v := by
  simp [alookup]

theorem alookup_cons_ne {κ β : Type} [DecidableEq κ] {k k' : κ} (v : β)
    (l : List (κ × β)) (h : ¬ k' = k) : alookup k ((k', v) :: l) = alookup k l := by
  simp [alookup, h]

theorem alookup_append {κ β : Type} [DecidableEq κ] (k : κ) (l₁ l₂ : List (κ × β)) :
    alookup k (l₁ ++ l₂) = optOr (alookup k l₁) (alookup k l₂) := by
  induction l₁ with
  | nil => simp [alookup, optOr]
  | cons p rest ih =>
    obtain ⟨k', v⟩ := p
    by_cases h : k' = k <;> simp [alookup, h, ih, optOr]

theorem alookup_aset {κ β : Type} [DecidableEq κ] (k k' : κ) (v : β) (l : List (κ × β)) :
    alookup k' (aset k v l) = if k = k' then some v else alookup k' l := by
  induction l with
  | nil =>
    by_cases h : k = k' <;> simp [aset, alookup, h]
  | cons p rest ih =>
    obtain ⟨k₀, v₀⟩ := p
    by_cases h₀ : k₀ = k
    · subst h₀
      by_cases h : k₀ = k' <;> simp [aset, alookup, h]
    · by_cases h : k₀ = k'
      · subst h
        have : ¬ k = k₀ := fun hk => h₀ hk.symm
        simp [aset, alookup, h₀, this, ih]
      · simp [aset, alookup, h₀, h, ih]

theorem aset_map_fst_of_mem {κ β : Type} [DecidableEq κ] {k : κ} (v : β)
    {l : List (κ × β)} (h : alookup k l ≠ none) :
    (aset k v l).map Prod.fst = l.map Prod.fst := by
  induction l with
  | nil => simp [alookup] at h
  | cons p rest ih =>
    obtain ⟨k₀, v₀⟩ := p
    by_cases h₀ : k₀ = k
    · subst h₀; simp [aset]
    · simp only [alookup, h₀, if_false] at h
      simp [aset, h₀, ih h]

theorem alookup_isSome_iff_mem_keys {κ β : Type} [DecidableEq κ] {k : κ}
    {l : List (κ × β)} : (alookup k l).isSome = true ↔ k ∈ l.map Prod.fst := by
  induction l with
  | nil => simp [alookup]
  | cons p rest ih =>
    obtain ⟨k₀, v₀⟩ := p
    by_cases h₀ : k₀ = k
    · subst h₀; simp [alookup]
    · have hne : k ≠ k₀ := fun h => h₀ h.symm
      simp [alookup, h₀, ih, hne]

/-! ## Lemmas about the Python slice `data[off : len - off]` -/

theorem sliceTrim_length {off : Nat} {xs : List ℚ} (h : 2 * off ≤ xs.length) :
    (sliceTrim off xs).length = xs.length - 2 * off := by
  simp only [sliceTrim, List.length_take, List.length_drop]
  omega

theorem sliceTrim_getElem (off : Nat) (xs : List ℚ) {k : Nat}
    (hk : k < xs.length - 2 * off) :
    (sliceTrim off xs)[k]? = xs[off + k]? := by
  simp only [sliceTrim, List.getElem?_take, List.getElem?_drop, hk, if_true]

theorem sliceTrim_zero (xs : List ℚ) : sliceTrim 0 xs = xs := by
  simp [sliceTrim]

/-! ## Lemmas about the filename search -/

theorem isPrefixList_iff (pre s : List Char) :
    isPrefixList pre s = true ↔ ∃ t, s = pre ++ t := by
  induction pre generalizing s with
  | nil => simp [isPrefixList]
  | cons a as ih =>
    cases s with
    | nil =>
      simp only [isPrefixList, List.cons_append]
      constructor
      · intro h; cases h
      · rintro ⟨t, ht⟩; cases ht
    | cons b bs =>
      simp only [isPrefixList, Bool.and_eq_true, beq_iff_eq, ih, List.cons_append,
        List.cons.injEq]
      constructor
      · rintro ⟨rfl, t, rfl⟩; exact ⟨t, rfl, rfl⟩
      · rintro ⟨t, rfl, rfl⟩; exact ⟨rfl, t, rfl⟩

theorem dropWhile_head_not {p : Char → Bool} {l : List Char} {c : Char}
    (h : (l.dropWhile p).head? = some c) : p c = false := by
  induction l with
  | nil => simp [List.dropWhile] at h
  | cons a as ih =>
    by_cases ha : p a
    · simp only [List.dropWhile, ha] at h; exact ih h
    · simp only [List.dropWhile, ha, Bool.false_eq_true, if_false, List.head?] at h
      cases h; exact Bool.eq_false_iff.mpr ha

theorem matchPrefixDigitsAt_sound {pre s : List Char} {n : Nat}
    (h : matchPrefixDigitsAt pre s = some n) :
    ∃ ds rest, s = pre ++ ds ++ rest ∧ ds ≠ [] ∧ (∀ c ∈ ds, c.isDigit = true) ∧
      n = digitsToNat ds ∧ ∀ c, rest.head? = some c → c.isDigit = false := by
  by_cases hp : isPrefixList pre s
  · obtain ⟨t, rfl⟩ := (isPrefixList_iff pre s).mp hp
    simp only [matchPrefixDigitsAt, hp, if_true, List.drop_left] at h
    by_cases he : (t.takeWhile Char.isDigit).isEmpty
    · simp [he] at h
    · simp only [he, Bool.false_eq_true, if_false, Option.some.injEq] at h
      refine ⟨t.takeWhile Char.isDigit, t.dropWhile Char.isDigit, ?_, ?_, ?_, h.symm, ?_⟩
      · rw [List.append_assoc, List.takeWhile_append_dropWhile]
      · intro hnil; rw [hnil] at he; simp [List.isEmpty] at he
      · intro c hc; exact List.mem_takeWhile_imp hc
      · intro c hc; exact dropWhile_head_not hc
  · simp [matchPrefixDigitsAt, hp] at h

theorem matchPrefixDigitsAt_isSome {pre ds rest : List Char}
    (hne : ds ≠ []) (hd : ∀ c ∈ ds, c.isDigit = true) :
    (matchPrefixDigitsAt pre (pre ++ ds ++ rest)).isSome = true := by
  have hp : isPrefixList pre (pre ++ ds ++ rest) = true :=
    (isPrefixList_iff _ _).mpr ⟨ds ++ rest, by simp⟩
  have hdrop : (pre ++ ds ++ rest).drop pre.length = ds ++ rest := by
    rw [List.append_assoc]; exact List.drop_left pre (ds ++ rest)
  simp only [matchPrefixDigitsAt, hp, if_true, hdrop]
  cases ds with
  | nil => exact absurd rfl hne
  | cons d ds' =>
    have : d.isDigit = true := hd d (List.mem_cons_self d ds')
    simp [List.takeWhile, this, List.isEmpty]

theorem searchPrefixDigits_sound {pre s : List Char} {n : Nat}
    (h : searchPrefixDigits pre s = some n) :
    ∃ a ds rest, s = a ++ pre ++ ds ++ rest ∧ ds ≠ [] ∧
      (∀ c ∈ ds, c.isDigit = true) ∧ n = digitsToNat ds := by
  induction s with
  | nil => simp [searchPrefixDigits] at h
  | cons c cs ih =>
    simp only [searchPrefixDigits] at h
    cases hm : matchPrefixDigitsAt pre (c :: cs) with
    | some m =>
      rw [hm] at h
      cases h
      obtain ⟨ds, rest, heq, hne, hd, hn, _⟩ := matchPrefixDigitsAt_sound hm
      exact ⟨[], ds, rest, by simpa using heq, hne, hd, hn⟩
    | none =>
      rw [hm] at h
      obtain ⟨a, ds, rest, heq, hne, hd, hn⟩ := ih h
      exact ⟨c :: a, ds, rest, by simpa using heq, hne, hd, hn⟩

theorem searchPrefixDigits_complete {pre a ds rest : List Char}
    (hne : ds ≠ []) (hd : ∀ c ∈ ds, c.isDigit = true) :
    (searchPrefixDigits pre (a ++ pre ++ ds ++ rest)).isSome = true := by
  induction a with
  | nil =>
    have hs : ([] : List Char) ++ pre ++ ds ++ rest = pre ++ ds ++ rest := by simp
    rw [hs]
    have hm := @matchPrefixDigitsAt_isSome pre ds rest hne hd
    cases hds : pre ++ ds ++ rest with
    | nil =>
      cases ds with
      | nil => exact absurd rfl hne
      | cons d ds' =>
        exfalso
        have : (pre ++ d :: ds' ++ rest).length = 0 := by rw [hds]; rfl
        simp at this
    | cons c cs =>
      rw [hds] at hm
      simp only [searchPrefixDigits]
      cases hmm : matchPrefixDigitsAt pre (c :: cs) with
      | some m => simp
      | none => rw [hmm] at hm; simp at hm
  | cons c a' ih =>
    have hs : (c :: a') ++ pre ++ ds ++ rest = c :: (a' ++ pre ++ ds ++ rest) := by simp
    rw [hs]
    simp only [searchPrefixDigits]
    cases hmm : matchPrefixDigitsAt pre (c :: (a' ++ pre ++ ds ++ rest)) with
    | some m => simp
    | none => simpa using ih

/-! ## Metadata-normalizer lemmas -/

/-- The per-bag view of `_write_tdms_properties`: each bag entry under its
(possibly renamed) destination key, with its serialized value. -/
def bagImage (repl : List (String × String)) (bag : PropertyBag) :
    List (String × TdmsValue) :=
  bag.map fun kv => (renameKey repl kv.1, serializeValue kv.2)

theorem alookup_writeTdmsProperties (bag : PropertyBag) (repl : List (String × String))
    (attrs : List (String × TdmsValue)) (k : String)
    (hnodup : ((bagImage repl bag).map Prod.fst).Nodup) :
    alookup k (writeTdmsProperties attrs bag repl) =
      optOr (alookup k (bagImage repl bag)) (alookup k attrs) := by
  induction bag generalizing attrs with
  | nil => simp [writeTdmsProperties, bagImage, alookup, optOr]
  | cons kv rest ih =>
    have hstep : writeTdmsProperties attrs (kv :: rest) repl =
        writeTdmsProperties (aset (renameKey repl kv.1) (serializeValue kv.2) attrs)
          rest repl := rfl
    have himg : bagImage repl (kv :: rest) =
        (renameKey repl kv.1, serializeValue kv.2) :: bagImage repl rest := rfl
    rw [himg] at hnodup
    simp only [List.map_cons, List.nodup_cons] at hnodup
    obtain ⟨hnotin, hnodup'⟩ := hnodup
    rw [hstep, himg, ih _ hnodup']
    by_cases hk : renameKey repl kv.1 = k
    · subst hk
      have hnone : alookup (renameKey repl kv.1) (bagImage repl rest) = none := by
        rw [alookup_eq_none_iff]
        intro p hp hcontra
        exact hnotin (hcontra ▸ List.mem_map_of_mem Prod.fst hp)
      rw [hnone]
      simp [alookup, alookup_aset, optOr]
    · simp only [alookup, hk, if_false]
      rw [alookup_aset]
      simp [hk]

/-! ## Slice-node construction lemmas -/

theorem mkSliceNode_eq {g : TdmsGroup} {laser area intensity param xs ys : List ℚ}
    (fileProps : PropertyBag) (cfg : Config) (bg1 bg2 : ℚ)
    (hL : alookup "LaserTTL" g.channels = some laser)
    (hA : alookup "Area" g.channels = some area)
    (hI : alookup "Intensity" g.channels = some intensity)
    (hP : alookup "Parameter" g.channels = some param)
    (hX : alookup "X-Axis" g.channels = some xs)
    (hY : alookup "Y-Axis" g.channels = some ys) :
    mkSliceNode fileProps cfg bg1 bg2 g =
      (⟨mergedSliceAttrs fileProps g.properties,
        [("LaserTTL", ⟨sliceTrim cfg.laserOffset laser, .native, []⟩),
         ("Area", ⟨sliceTrim cfg.areaOffset area, .native, []⟩),
         ("Intensity", ⟨sliceTrim cfg.intensityOffset intensity, .native, []⟩),
         ("Parameter", ⟨param, .native, []⟩),
         ("X-Axis", ⟨xs.map (· / bg1), .float32, [("Units", .str "μm")]⟩),
         ("Y-Axis", ⟨ys.map (· / bg2), .float32, [("Units", .str "μm")]⟩)]⟩,
       none) := by
  simp [mkSliceNode, hL, hA, hI, hP, hX, hY]

/-! ## Reduction lemmas for the group writer -/

theorem getOrCreateContainer_eq_found (cfg : Config) (st : RunState) (name : String)
    (c : Container) (h : alookup name st.h5Files = some c) :
    getOrCreateContainer cfg st name = (c, st) := by
  simp [getOrCreateContainer, h]

theorem getOrCreateContainer_eq_fresh (cfg : Config) (st : RunState) (name : String)
    (h : alookup name st.h5Files = none) :
    getOrCreateContainer cfg st name =
      (newContainer cfg name,
       { st with h5Files := st.h5Files ++ [(name, newContainer cfg name)] }) := by
  simp [getOrCreateContainer, h]

/-! ## Monotonicity of the main pass

Processing never deletes or rewrites what an earlier slice wrote: a
container, once created, keeps its path, top-level attributes, `TDMSData`
attributes and all existing slice nodes; later slices only add nodes. -/

/-- Container `c'` extends container `c`: every part of `c` other than new
slice nodes is unchanged. -/
def ContainerExtends (c c' : Container) : Prop :=
  c'.filePath = c.filePath ∧ c'.attrs = c.attrs ∧ c'.tdmsDataAttrs = c.tdmsDataAttrs ∧
  c'.index = c.index ∧ c'.indexAttrs = c.indexAttrs ∧
  ∀ i n, alookup i c.nodes = some n → alookup i c'.nodes = some n

theorem containerExtends_refl (c : Container) : ContainerExtends c c :=
  ⟨rfl, rfl, rfl, rfl, rfl, fun _ _ h => h⟩

theorem containerExtends_trans {a b c : Container}
    (h₁ : ContainerExtends a b) (h₂ : ContainerExtends b c) : ContainerExtends a c :=
  ⟨h₂.1.trans h₁.1, h₂.2.1.trans h₁.2.1, h₂.2.2.1.trans h₁.2.2.1,
   h₂.2.2.2.1.trans h₁.2.2.2.1, h₂.2.2.2.2.1.trans h₁.2.2.2.2.1,
   fun i n h => h₂.2.2.2.2.2 i n (h₁.2.2.2.2.2 i n h)⟩

/-- State `st'` extends state `st`: every container of `st` is still
registered and has only grown. -/
def StateExtends (st st' : RunState) : Prop :=
  ∀ name c, alookup name st.h5Files = some c →
    ∃ c', alookup name st'.h5Files = some c' ∧ ContainerExtends c c'

theorem stateExtends_refl (st : RunState) : StateExtends st st :=
  fun _ c h => ⟨c, h, containerExtends_refl c⟩

theorem stateExtends_trans {a b c : RunState}
    (h₁ : StateExtends a b) (h₂ : StateExtends b c) : StateExtends a c := by
  intro name c₀ h
  obtain ⟨c₁, h₁', e₁⟩ := h₁ name c₀ h
  obtain ⟨c₂, h₂', e₂⟩ := h₂ name c₁ h₁'
  exact ⟨c₂, h₂', containerExtends_trans e₁ e₂⟩

theorem appendNode_extends (c : Container) (idx : Nat) (node : SliceNode) :
    ContainerExtends c { c with nodes := c.nodes ++ [(idx, node)] } := by
  refine ⟨rfl, rfl, rfl, rfl, rfl, fun i n h => ?_⟩
  simp only [alookup_append, h, optOr]

theorem processGroup_extends (cfg : Config) (fileProps : PropertyBag) (bg1 bg2 : ℚ)
    (idx : Nat) (st : RunState) (g : TdmsGroup) :
    StateExtends st (processGroup cfg fileProps bg1 bg2 idx st g).1 := by
  by_cases hp : passesFilter cfg.groups g.name
  · simp only [processGroup, hp, if_true]
    cases hc : alookup g.name st.h5Files with
    | some c =>
      rw [getOrCreateContainer_eq_found cfg st g.name c hc]
      cases hdup : alookup idx c.nodes with
      | some n => exact stateExtends_refl st
      | none =>
        cases hmk : mkSliceNode fileProps cfg bg1 bg2 g with
        | mk node err =>
          intro name c₀ h₀
          by_cases hname : g.name = name
          · subst hname
            have : c₀ = c := by rw [hc] at h₀; exact (Option.some.injEq _ _ ▸ h₀).symm
            subst this
            refine ⟨_, ?_, appendNode_extends c₀ idx node⟩
            simp [alookup_aset]
          · refine ⟨c₀, ?_, containerExtends_refl c₀⟩
            simp [alookup_aset, hname, h₀]
    | none =>
      rw [getOrCreateContainer_eq_fresh cfg st g.name hc]
      have hnodes : alookup idx (newContainer cfg g.name).nodes = none := rfl
      rw [hnodes]
      cases hmk : mkSliceNode fileProps cfg bg1 bg2 g with
      | mk node err =>
        intro name c₀ h₀
        have hname : ¬ g.name = name := by
          intro h; subst h; rw [hc] at h₀; cases h₀
        refine ⟨c₀, ?_, containerExtends_refl c₀⟩
        simp [alookup_aset, hname, alookup_append, h₀, optOr]
  · simp only [processGroup, hp, if_false]
    exact stateExtends_refl st

theorem processGroups_extends (cfg : Config) (fileProps : PropertyBag) (bg1 bg2 : ℚ)
    (idx : Nat) (st : RunState) (gs : List TdmsGroup) :
    StateExtends st (processGroups cfg fileProps bg1 bg2 idx st gs).1 := by
  induction gs generalizing st with
  | nil => exact stateExtends_refl st
  | cons g gs ih =>
    simp only [processGroups]
    cases hg : processGroup cfg fileProps bg1 bg2 idx st g with
    | mk st' err =>
      have h₁ : StateExtends st st' := by
        have := processGroup_extends cfg fileProps bg1 bg2 idx st g
        rw [hg] at this; exact this
      cases err with
      | none => exact stateExtends_trans h₁ (ih st')
      | some e => exact h₁

theorem processFile_extends (cfg : Config) (st : RunState) (f : TdmsFileData) (idx : Nat) :
    StateExtends st (processFile cfg st f idx).1 := by
  simp only [processFile]
  cases hbg : fileBitgains f with
  | error e => intro name c h; exact ⟨c, h, containerExtends_refl c⟩
  | ok p =>
    cases p with
    | mk bg1 bg2 =>
      have := processGroups_extends cfg f.properties bg1 bg2 idx
        { st with sliceIndices := st.sliceIndices ++ [idx] } f.groups
      intro name c h
      exact this name c h

theorem processSlices_extends (cfg : Config) (st : RunState)
    (slices : List (TdmsFileData × Nat)) :
    StateExtends st (processSlices cfg st slices).1 := by
  induction slices generalizing st with
  | nil => exact stateExtends_refl st
  | cons p rest ih =>
    obtain ⟨f, i⟩ := p
    simp only [processSlices]
    cases hf : processFile cfg st f i with
    | mk st' err =>
      have h₁ : StateExtends st st' := by
        have := processFile_extends cfg st f i
        rw [hf] at this; exact this
      cases err with
      | none => exact stateExtends_trans h₁ (ih st')
      | some e => exact h₁

/-! ## Well-formedness invariants of the container registry -/

/-- Registry invariant: group names are registered at most once, and every
registered container was created by `newContainer` as far as its path and
identifying attributes are concerned. -/
def WfContainers (cfg : Config) (files : List (String × Container)) : Prop :=
  (files.map Prod.fst).Nodup ∧
  ∀ name c, alookup name files = some c →
    c.filePath = cfg.outputDir ++ "/" ++ name ++ ".h5" ∧
    c.attrs = [("Version", TdmsValue.int 3)] ∧
    c.tdmsDataAttrs = [("TDMS_GroupName", TdmsValue.str name)]

theorem wfContainers_aset_nodes (cfg : Config) {files : List (String × Container)}
    {name : String} {c : Container} (hwf : WfContainers cfg files)
    (hc : alookup name files = some c) (nodes' : List (Nat × SliceNode)) :
    WfContainers cfg (aset name { c with nodes := nodes' } files) := by
  obtain ⟨hnodup, hprops⟩ := hwf
  constructor
  · rw [aset_map_fst_of_mem _ (by rw [hc]; exact fun h => Option.noConfusion h)]
    exact hnodup
  · intro name' c' hc'
    rw [alookup_aset] at hc'
    by_cases h : name = name'
    · subst h
      simp only [if_true] at hc'
      cases hc'
      exact hprops name c hc
    · rw [if_neg h] at hc'
      exact hprops name' c' hc'

theorem wfContainers_append_fresh (cfg : Config) {files : List (String × Container)}
    {name : String} (hwf : WfContainers cfg files)
    (hc : alookup name files = none) :
    WfContainers cfg (files ++ [(name, newContainer cfg name)]) := by
  obtain ⟨hnodup, hprops⟩ := hwf
  have hnotmem : name ∉ files.map Prod.fst := by
    intro hmem
    have := alookup_isSome_iff_mem_keys.mpr hmem
    rw [hc] at this
    cases this
  constructor
  · simp only [List.map_append, List.map_cons, List.map_nil]
    rw [List.nodup_append]
    exact ⟨hnodup, List.nodup_singleton _, by simpa using fun h => hnotmem h⟩
  · intro name' c' hc'
    rw [alookup_append] at hc'
    cases hl : alookup name' files with
    | some c₀ =>
      rw [hl] at hc'
      simp only [optOr, Option.some.injEq] at hc'
      subst hc'
      exact hprops name' _ hl
    | none =>
      rw [hl] at hc'
      simp only [optOr, alookup] at hc'
      by_cases h : name = name'
      · subst h
        rw [if_pos rfl, Option.some.injEq] at hc'
        subst hc'
        exact ⟨rfl, rfl, rfl⟩
      · rw [if_neg h] at hc'
        cases hc'

theorem processGroup_wf (cfg : Config) (fileProps : PropertyBag) (bg1 bg2 : ℚ)
    (idx : Nat) (st : RunState) (g : TdmsGroup)
    (hwf : WfContainers cfg st.h5Files) :
    WfContainers cfg (processGroup cfg fileProps bg1 bg2 idx st g).1.h5Files := by
  by_cases hp : passesFilter cfg.groups g.name
  · simp only [processGroup, hp, if_true]
    cases hc : alookup g.name st.h5Files with
    | some c =>
      rw [getOrCreateContainer_eq_found cfg st g.name c hc]
      cases hdup : alookup idx c.nodes with
      | some n => exact hwf
      | none =>
        cases hmk : mkSliceNode fileProps cfg bg1 bg2 g with
        | mk node err => exact wfContainers_aset_nodes cfg hwf hc _
    | none =>
      rw [getOrCreateContainer_eq_fresh cfg st g.name hc]
      have hnodes : alookup idx (newContainer cfg g.name).nodes = none := rfl
      rw [hnodes]
      cases hmk : mkSliceNode fileProps cfg bg1 bg2 g with
      | mk node err =>
        have hwf' := wfContainers_append_fresh cfg hwf hc
        have hc' : alookup g.name (st.h5Files ++ [(g.name, newContainer cfg g.name)]) =
            some (newContainer cfg g.name) := by
          rw [alookup_append, hc]
          simp [optOr, alookup]
        exact wfContainers_aset_nodes cfg hwf' hc' _
  · simp only [processGroup, hp, if_false]
    exact hwf

theorem processGroups_wf (cfg : Config) (fileProps : PropertyBag) (bg1 bg2 : ℚ)
    (idx : Nat) (st : RunState) (gs : List TdmsGroup)
    (hwf : WfContainers cfg st.h5Files) :
    WfContainers cfg (processGroups cfg fileProps bg1 bg2 idx st gs).1.h5Files := by
  induction gs generalizing st with
  | nil => exact hwf
  | cons g gs ih =>
    simp only [processGroups]
    cases hg : processGroup cfg fileProps bg1 bg2 idx st g with
    | mk st' err =>
      have h₁ : WfContainers cfg st'.h5Files := by
        have := processGroup_wf cfg fileProps bg1 bg2 idx st g hwf
        rw [hg] at this; exact this
      cases err with
      | none => exact ih st' h₁
      | some e => exact h₁

theorem processFile_wf (cfg : Config) (st : RunState) (f : TdmsFileData) (idx : Nat)
    (hwf : WfContainers cfg st.h5Files) :
    WfContainers cfg (processFile cfg st f idx).1.h5Files := by
  simp only [processFile]
  cases hbg : fileBitgains f with
  | error e => exact hwf
  | ok p =>
    cases p with
    | mk bg1 bg2 => exact processGroups_wf cfg f.properties bg1 bg2 idx _ f.groups hwf

theorem processSlices_wf (cfg : Config) (st : RunState)
    (slices : List (TdmsFileData × Nat)) (hwf : WfContainers cfg st.h5Files) :
    WfContainers cfg (processSlices cfg st slices).1.h5Files := by
  induction slices generalizing st with
  | nil => exact hwf
  | cons p rest ih =>
    obtain ⟨f, i⟩ := p
    simp only [processSlices]
    cases hf : processFile cfg st f i with
    | mk st' err =>
      have h₁ : WfContainers cfg st'.h5Files := by
        have := processFile_wf cfg st f i hwf
        rw [hf] at this; exact this
      cases err with
      | none => exact ih st' h₁
      | some e => exact h₁

/-! ## Finalization lemmas -/

theorem finalizeContainer_cases (idxs : List Nat) (c : Container) :
    (∃ e, buildIndexRows c idxs = .error e ∧ finalizeContainer idxs c = (c, some e)) ∨
    (∃ rows, buildIndexRows c idxs = .ok rows ∧
      finalizeContainer idxs c =
        ({ c with index := some rows, indexAttrs := indexColumnAttrs }, none)) := by
  cases h : buildIndexRows c idxs with
  | error e => exact Or.inl ⟨e, rfl, by simp [finalizeContainer, h]⟩
  | ok rows => exact Or.inr ⟨rows, rfl, by simp [finalizeContainer, h]⟩

theorem finalizeContainers_cons_error (idxs : List Nat) (name : String) (c : Container)
    (rest : List (String × Container)) (c' : Container) (e : RunError)
    (h : finalizeContainer idxs c = (c', some e)) :
    finalizeContainers idxs ((name, c) :: rest) = ((name, c') :: rest, some e) := by
  simp [finalizeContainers, h]

theorem finalizeContainers_cons_ok (idxs : List Nat) (name : String) (c : Container)
    (rest : List (String × Container)) (c' : Container)
    (rest' : List (String × Container)) (err : Option RunError)
    (h : finalizeContainer idxs c = (c', none))
    (hrest : finalizeContainers idxs rest = (rest', err)) :
    finalizeContainers idxs ((name, c) :: rest) = ((name, c') :: rest', err) := by
  simp [finalizeContainers, h, hrest]

theorem finalizeContainers_keys (idxs : List Nat) (l : List (String × Container)) :
    (finalizeContainers idxs l).1.map Prod.fst = l.map Prod.fst := by
  induction l with
  | nil => rfl
  | cons p rest ih =>
    obtain ⟨name, c⟩ := p
    cases hf : finalizeContainer idxs c with
    | mk c' err =>
      cases err with
      | some e =>
        rw [finalizeContainers_cons_error idxs name c rest c' e hf]
        simp
      | none =>
        cases hrest : finalizeContainers idxs rest with
        | mk rest' err' =>
          rw [finalizeContainers_cons_ok idxs name c rest c' rest' err' hf hrest]
          rw [hrest] at ih
          simpa using ih

theorem finalizeContainers_ok_lookup (idxs : List Nat) (l : List (String × Container))
    (hok : (finalizeContainers idxs l).2 = none) (name : String) (c : Container)
    (hc : alookup name l = some c) :
    ∃ rows, buildIndexRows c idxs = .ok rows ∧
      alookup name (finalizeContainers idxs l).1 =
        some { c with index := some rows, indexAttrs := indexColumnAttrs } := by
  induction l with
  | nil => cases hc
  | cons p rest ih =>
    obtain ⟨name₀, c₀⟩ := p
    cases hf : finalizeContainer idxs c₀ with
    | mk c₀' err =>
      cases err with
      | some e =>
        rw [finalizeContainers_cons_error idxs name₀ c₀ rest c₀' e hf] at hok
        cases hok
      | none =>
        cases hrest : finalizeContainers idxs rest with
        | mk rest' err' =>
          rw [finalizeContainers_cons_ok idxs name₀ c₀ rest c₀' rest' err' hf hrest] at hok ⊢
          rcases finalizeContainer_cases idxs c₀ with ⟨e, _, heq⟩ | ⟨rows, hrows, heq⟩
          · rw [heq] at hf; cases hf
          · rw [heq] at hf
            injection hf with hf₁ hf₂
            by_cases h : name₀ = name
            · subst h
              rw [alookup_cons_self] at hc
              injection hc with hc
              subst hc
              exact ⟨rows, hrows, by rw [alookup_cons_self, ← hf₁]⟩
            · rw [alookup_cons_ne _ _ h] at hc
              rw [alookup_cons_ne _ _ h]
              have := ih (by rw [hrest]; exact hok) hc
              rw [hrest] at this
              exact this

theorem finalizeContainers_lookup_extends (idxs : List Nat)
    (l : List (String × Container)) (name : String) (c : Container)
    (hc : alookup name l = some c) :
    ∃ c', alookup name (finalizeContainers idxs l).1 = some c' ∧
      c'.filePath = c.filePath ∧ c'.attrs = c.attrs ∧
      c'.tdmsDataAttrs = c.tdmsDataAttrs ∧ c'.nodes = c.nodes := by
  induction l with
  | nil => cases hc
  | cons p rest ih =>
    obtain ⟨name₀, c₀⟩ := p
    cases hf : finalizeContainer idxs c₀ with
    | mk c₀' err =>
      have hsame : c₀'.filePath = c₀.filePath ∧ c₀'.attrs = c₀.attrs ∧
          c₀'.tdmsDataAttrs = c₀.tdmsDataAttrs ∧ c₀'.nodes = c₀.nodes := by
        rcases finalizeContainer_cases idxs c₀ with ⟨e, _, heq⟩ | ⟨rows, _, heq⟩ <;>
          rw [heq] at hf <;> injection hf with hf₁ _ <;> rw [← hf₁] <;>
          exact ⟨rfl, rfl, rfl, rfl⟩
      cases err with
      | some e =>
        rw [finalizeContainers_cons_error idxs name₀ c₀ rest c₀' e hf]
        by_cases h : name₀ = name
        · subst h
          rw [alookup_cons_self] at hc
          injection hc with hc
          subst hc
          exact ⟨c₀', alookup_cons_self _ _ _, hsame⟩
        · rw [alookup_cons_ne _ _ h] at hc
          exact ⟨c, by rw [alookup_cons_ne _ _ h]; exact hc, rfl, rfl, rfl, rfl⟩
      | none =>
        cases hrest : finalizeContainers idxs rest with
        | mk rest' err' =>
          rw [finalizeContainers_cons_ok idxs name₀ c₀ rest c₀' rest' err' hf hrest]
          by_cases h : name₀ = name
          · subst h
            rw [alookup_cons_self] at hc
            injection hc with hc
            subst hc
            exact ⟨c₀', alookup_cons_self _ _ _, hsame⟩
          · rw [alookup_cons_ne _ _ h] at hc
            obtain ⟨c', hcl, hrest'⟩ := by
              have := ih hc
              rw [hrest] at this
              exact this
            exact ⟨c', by rw [alookup_cons_ne _ _ h]; exact hcl, hrest'⟩

/-! ## Lemmas about the index rows -/

theorem buildIndexRows_ok {c : Container} {idxs : List Nat}
    {rows : List (Nat × Int × Nat)} (h : buildIndexRows c idxs = .ok rows) :
    rows.map (fun r => r.1) = idxs ∧
    ∀ r ∈ rows, ∃ n, alookup r.1 c.nodes = some n ∧
      readLayerThickness n = .ok r.2.1 ∧
      ∃ d, alookup "X-Axis" n.datasets = some d ∧ r.2.2 = d.data.length := by
  induction idxs generalizing rows with
  | nil =>
    simp only [buildIndexRows] at h
    injection h with h
    subst h
    exact ⟨rfl, by intro r hr; cases hr⟩
  | cons i is ih =>
    simp only [buildIndexRows] at h
    cases hn : alookup i c.nodes with
    | none => simp only [hn] at h; cases h
    | some n =>
      simp only [hn] at h
      cases ht : readLayerThickness n with
      | error e => simp only [ht] at h; cases h
      | ok t =>
        simp only [ht] at h
        cases hd : alookup "X-Axis" n.datasets with
        | none => simp only [hd] at h; cases h
        | some d =>
          simp only [hd] at h
          cases hrec : buildIndexRows c is with
          | error e => simp only [hrec] at h; cases h
          | ok rows' =>
            simp only [hrec, Except.ok.injEq] at h
            subst h
            obtain ⟨hmap, hcontent⟩ := ih hrec
            refine ⟨by simpa using hmap, ?_⟩
            intro r hr
            rcases List.mem_cons.mp hr with hr | hr
            · subst hr
              exact ⟨n, hn, ht, d, hd, rfl⟩
            · exact hcontent r hr

theorem buildIndexRows_error_of_missing {c : Container} {idxs : List Nat}
    (hnodes : ∀ i ∈ idxs, (alookup i c.nodes).isSome = true)
    (hmiss : ∃ i ∈ idxs,
      (alookup i c.nodes).any
        (fun n => (alookup "layerThickness" n.attrs).isNone) = true) :
    ∃ e, buildIndexRows c idxs = .error e ∧ e.isDataError = true := by
  induction idxs with
  | nil => obtain ⟨i, hi, _⟩ := hmiss; cases hi
  | cons i is ih =>
    simp only [buildIndexRows]
    cases hn : alookup i c.nodes with
    | none =>
      have := hnodes i (List.mem_cons_self i is)
      rw [hn] at this
      cases this
    | some n =>
      simp only [hn]
      cases ht : readLayerThickness n with
      | error e =>
        simp only [ht]
        refine ⟨e, rfl, ?_⟩
        simp only [readLayerThickness] at ht
        cases ha : alookup "layerThickness" n.attrs with
        | none => rw [ha] at ht; injection ht with ht; subst ht; rfl
        | some v =>
          rw [ha] at ht
          cases v with
          | int m => cases ht
          | float q => cases ht
          | str s => injection ht with ht; subst ht; rfl
          | timestamp u => injection ht with ht; subst ht; rfl
      | ok t =>
        simp only [ht]
        cases hd : alookup "X-Axis" n.datasets with
        | none =>
          simp only [hd]
          exact ⟨.missingChannel "X-Axis", rfl, rfl⟩
        | some d =>
          simp only [hd]
          have hmiss' : ∃ j ∈ is,
              (alookup j c.nodes).any
                (fun n => (alookup "layerThickness" n.attrs).isNone) = true := by
            obtain ⟨j, hj, hja⟩ := hmiss
            rcases List.mem_cons.mp hj with hj | hj
            · exfalso
              subst hj
              rw [hn] at hja
              simp only [Option.any_some] at hja
              simp only [readLayerThickness] at ht
              cases ha : alookup "layerThickness" n.attrs with
              | none => rw [ha] at ht; cases ht
              | some v => rw [ha] at hja; simp [Option.isNone] at hja
            · exact ⟨j, hj, hja⟩
          obtain ⟨e, herr, hde⟩ :=
            ih (fun j hj => hnodes j (List.mem_cons_of_mem i hj)) hmiss'
          rw [herr]
          exact ⟨e, rfl, hde⟩

/-! ## Bookkeeping of the global slice-index list -/

theorem processGroup_sliceIndices (cfg : Config) (fileProps : PropertyBag)
    (bg1 bg2 : ℚ) (idx : Nat) (st : RunState) (g : TdmsGroup) :
    (processGroup cfg fileProps bg1 bg2 idx st g).1.sliceIndices = st.sliceIndices := by
  by_cases hp : passesFilter cfg.groups g.name
  · simp only [processGroup, hp, if_true]
    cases hc : alookup g.name st.h5Files with
    | some c =>
      rw [getOrCreateContainer_eq_found cfg st g.name c hc]
      cases hdup : alookup idx c.nodes with
      | some n => rfl
      | none =>
        cases hmk : mkSliceNode fileProps cfg bg1 bg2 g with
        | mk node err => rfl
    | none =>
      rw [getOrCreateContainer_eq_fresh cfg st g.name hc]
      have hnodes : alookup idx (newContainer cfg g.name).nodes = none := rfl
      rw [hnodes]
  · simp [processGroup, hp]

theorem processGroups_sliceIndices (cfg : Config) (fileProps : PropertyBag)
    (bg1 bg2 : ℚ) (idx : Nat) (st : RunState) (gs : List TdmsGroup) :
    (processGroups cfg fileProps bg1 bg2 idx st gs).1.sliceIndices = st.sliceIndices := by
  induction gs generalizing st with
  | nil => rfl
  | cons g gs ih =>
    simp only [processGroups]
    cases hg : processGroup cfg fileProps bg1 bg2 idx st g with
    | mk st' err =>
      have h₁ : st'.sliceIndices = st.sliceIndices := by
        have := processGroup_sliceIndices cfg fileProps bg1 bg2 idx st g
        rw [hg] at this; exact this
      cases err with
      | none => rw [ih st']; exact h₁
      | some e => exact h₁

theorem processFile_sliceIndices (cfg : Config) (st : RunState) (f : TdmsFileData)
    (idx : Nat) :
    (processFile cfg st f idx).1.sliceIndices = st.sliceIndices ++ [idx] := by
  simp only [processFile]
  cases hbg : fileBitgains f with
  | error e => rfl
  | ok p =>
    cases p with
    | mk bg1 bg2 =>
      exact processGroups_sliceIndices cfg f.properties bg1 bg2 idx _ f.groups

theorem processSlices_ok_sliceIndices (cfg : Config) (st : RunState)
    (slices : List (TdmsFileData × Nat)) (st' : RunState)
    (h : processSlices cfg st slices = (st', none)) :
    st'.sliceIndices = st.sliceIndices ++ slices.map Prod.snd := by
  induction slices generalizing st with
  | nil =>
    simp only [processSlices] at h
    injection h with h₁ _
    subst h₁
    simp
  | cons p rest ih =>
    obtain ⟨f, i⟩ := p
    simp only [processSlices] at h
    cases hf : processFile cfg st f i with
    | mk st₁ err =>
      rw [hf] at h
      cases err with
      | none =>
        have h' : processSlices cfg st₁ rest = (st', none) := h
        have hrec := ih st₁ h'
        have hsi := processFile_sliceIndices cfg st f i
        rw [hf] at hsi
        simp only at hsi
        rw [hsi] at hrec
        simpa [List.append_assoc] using hrec
      | some e => exact Option.noConfusion (congrArg Prod.snd h)

/-! ## Slice nodes are only created for discovered indices -/

/-- Every slice node registered in the state is keyed by an index recorded
in the global `slice_indices` list. -/
def NodeKeysCovered (st : RunState) : Prop :=
  ∀ name c, alookup name st.h5Files = some c →
    ∀ i, (alookup i c.nodes).isSome = true → i ∈ st.sliceIndices

theorem processGroup_covered (cfg : Config) (fileProps : PropertyBag) (bg1 bg2 : ℚ)
    (idx : Nat) (st : RunState) (g : TdmsGroup) (hcov : NodeKeysCovered st)
    (hidx : idx ∈ st.sliceIndices) :
    NodeKeysCovered (processGroup cfg fileProps bg1 bg2 idx st g).1 := by
  have hsi := processGroup_sliceIndices cfg fileProps bg1 bg2 idx st g
  by_cases hp : passesFilter cfg.groups g.name
  · simp only [processGroup, hp, if_true] at hsi ⊢
    cases hc : alookup g.name st.h5Files with
    | some c =>
      rw [getOrCreateContainer_eq_found cfg st g.name c hc] at hsi ⊢
      cases hdup : alookup idx c.nodes with
      | some n => exact hcov
      | none =>
        cases hmk : mkSliceNode fileProps cfg bg1 bg2 g with
        | mk node err =>
          intro name c' hc' i hi
          rw [alookup_aset] at hc'
          by_cases h : g.name = name
          · rw [if_pos h] at hc'
            injection hc' with hc'
            subst hc'
            rw [alookup_append] at hi
            cases hn : alookup i c.nodes with
            | some n₀ =>
              exact hcov g.name c (h ▸ hc) i (by rw [hn]; rfl)
            | none =>
              rw [hn] at hi
              simp only [optOr] at hi
              by_cases hik : idx = i
              · subst hik; exact hidx
              · rw [alookup_cons_ne _ _ hik] at hi
                simp [alookup] at hi
          · rw [if_neg h] at hc'
            exact hcov name c' hc' i hi
    | none =>
      rw [getOrCreateContainer_eq_fresh cfg st g.name hc] at hsi ⊢
      have hnodes : alookup idx (newContainer cfg g.name).nodes = none := rfl
      rw [hnodes] at hsi ⊢
      cases hmk : mkSliceNode fileProps cfg bg1 bg2 g with
      | mk node err =>
        intro name c' hc' i hi
        rw [alookup_aset] at hc'
        by_cases h : g.name = name
        · rw [if_pos h] at hc'
          injection hc' with hc'
          subst hc'
          simp only [newContainer, List.nil_append] at hi
          by_cases hik : idx = i
          · subst hik; exact hidx
          · rw [alookup_cons_ne _ _ hik] at hi
            simp [alookup] at hi
        · rw [if_neg h, alookup_append] at hc'
          cases hl : alookup name st.h5Files with
          | some c₀ =>
            rw [hl] at hc'
            simp only [optOr] at hc'
            injection hc' with hc'
            subst hc'
            exact hcov name c₀ hl i hi
          | none =>
            rw [hl] at hc'
            simp only [optOr] at hc'
            rw [alookup_cons_ne _ _ h] at hc'
            simp [alookup] at hc'
  · simp only [processGroup, hp, if_false] at hsi ⊢
    exact hcov

theorem processGroups_covered (cfg : Config) (fileProps : PropertyBag) (bg1 bg2 : ℚ)
    (idx : Nat) (st : RunState) (gs : List TdmsGroup) (hcov : NodeKeysCovered st)
    (hidx : idx ∈ st.sliceIndices) :
    NodeKeysCovered (processGroups cfg fileProps bg1 bg2 idx st gs).1 := by
  induction gs generalizing st with
  | nil => exact hcov
  | cons g gs ih =>
    simp only [processGroups]
    cases hg : processGroup cfg fileProps bg1 bg2 idx st g with
    | mk st' err =>
      have h₁ : NodeKeysCovered st' := by
        have := processGroup_covered cfg fileProps bg1 bg2 idx st g hcov hidx
        rw [hg] at this; exact this
      have h₂ : idx ∈ st'.sliceIndices := by
        have := processGroup_sliceIndices cfg fileProps bg1 bg2 idx st g
        rw [hg] at this
        rw [this]
        exact hidx
      cases err with
      | none => exact ih st' h₁ h₂
      | some e => exact h₁

theorem processFile_covered (cfg : Config) (st : RunState) (f : TdmsFileData)
    (idx : Nat) (hcov : NodeKeysCovered st) :
    NodeKeysCovered (processFile cfg st f idx).1 := by
  simp only [processFile]
  have hcov' : NodeKeysCovered { st with sliceIndices := st.sliceIndices ++ [idx] } := by
    intro name c hc i hi
    exact List.mem_append_left _ (hcov name c hc i hi)
  cases hbg : fileBitgains f with
  | error e => exact hcov'
  | ok p =>
    cases p with
    | mk bg1 bg2 =>
      exact processGroups_covered cfg f.properties bg1 bg2 idx _ f.groups hcov'
        (List.mem_append_right _ (List.mem_singleton.mpr rfl))

theorem processSlices_covered (cfg : Config) (st : RunState)
    (slices : List (TdmsFileData × Nat)) (hcov : NodeKeysCovered st) :
    NodeKeysCovered (processSlices cfg st slices).1 := by
  induction slices generalizing st with
  | nil => exact hcov
  | cons p rest ih =>
    obtain ⟨f, i⟩ := p
    simp only [processSlices]
    cases hf : processFile cfg st f i with
    | mk st' err =>
      have h₁ : NodeKeysCovered st' := by
        have := processFile_covered cfg st f i hcov
        rw [hf] at this; exact this
      cases err with
      | none => exact ih st' h₁
      | some e => exact h₁

/-! ## Structure of the whole run -/

theorem runTdms2h5_eq_of_process_error (cfg : Config) (files : List TdmsFileData)
    (stP : RunState) (e : RunError)
    (h : processSlices cfg ⟨[], []⟩ (discoverSlices cfg files) = (stP, some e)) :
    runTdms2h5 cfg (some files) = (stP, some e) := by
  simp [runTdms2h5, h]

theorem runTdms2h5_eq_of_process_ok (cfg : Config) (files : List TdmsFileData)
    (stP : RunState)
    (h : processSlices cfg ⟨[], []⟩ (discoverSlices cfg files) = (stP, none)) :
    runTdms2h5 cfg (some files) =
      ({ h5Files := (finalizeContainers
            (List.insertionSort (· ≤ ·) stP.sliceIndices) stP.h5Files).1,
         sliceIndices := List.insertionSort (· ≤ ·) stP.sliceIndices },
       (finalizeContainers
            (List.insertionSort (· ≤ ·) stP.sliceIndices) stP.h5Files).2) := by
  simp [runTdms2h5, h]

theorem runTdms2h5_ok_decomp (cfg : Config) (files : List TdmsFileData)
    (hok : (runTdms2h5 cfg (some files)).2 = none) :
    ∃ stP, processSlices cfg ⟨[], []⟩ (discoverSlices cfg files) = (stP, none) ∧
      (finalizeContainers
        (List.insertionSort (· ≤ ·) stP.sliceIndices) stP.h5Files).2 = none ∧
      runTdms2h5 cfg (some files) =
        ({ h5Files := (finalizeContainers
              (List.insertionSort (· ≤ ·) stP.sliceIndices) stP.h5Files).1,
           sliceIndices := List.insertionSort (· ≤ ·) stP.sliceIndices },
         none) := by
  cases hP : processSlices cfg ⟨[], []⟩ (discoverSlices cfg files) with
  | mk stP err =>
    cases err with
    | some e =>
      rw [runTdms2h5_eq_of_process_error cfg files stP e hP] at hok
      cases hok
    | none =>
      have heq := runTdms2h5_eq_of_process_ok cfg files stP hP
      rw [heq] at hok
      simp only at hok
      exact ⟨stP, rfl, hok, by rw [heq, hok]⟩

/-! ## Duplicate slice indices abort at node creation -/

theorem processGroups_duplicate (cfg : Config) (fileProps : PropertyBag)
    (bg1 bg2 : ℚ) (idx : Nat) (st : RunState) (gs : List TdmsGroup) (g : TdmsGroup)
    (hfind : gs.find? (fun g' => passesFilter cfg.groups g'.name) = some g)
    (c : Container) (hc : alookup g.name st.h5Files = some c)
    (hdup : (alookup idx c.nodes).isSome = true) :
    processGroups cfg fileProps bg1 bg2 idx st gs =
      (st, some (.duplicateNode idx)) := by
  induction gs generalizing st with
  | nil => cases hfind
  | cons g₀ gs ih =>
    by_cases hp : passesFilter cfg.groups g₀.name
    · rw [List.find?_cons_of_pos gs hp] at hfind
      injection hfind with hfind
      subst hfind
      simp only [processGroups, processGroup, hp, if_true,
        getOrCreateContainer_eq_found cfg st g₀.name c hc]
      cases hn : alookup idx c.nodes with
      | none => rw [hn] at hdup; cases hdup
      | some n => rfl
    · rw [List.find?_cons_of_neg gs hp] at hfind
      have hskip : processGroup cfg fileProps bg1 bg2 idx st g₀ = (st, none) := by
        simp [processGroup, hp]
      simp only [processGroups, hskip]
      exact ih st hfind hc

theorem processSlices_append_ok (cfg : Config) (st : RunState)
    (D₁ D₂ : List (TdmsFileData × Nat)) (st₁ : RunState)
    (h : processSlices cfg st D₁ = (st₁, none)) :
    processSlices cfg st (D₁ ++ D₂) = processSlices cfg st₁ D₂ := by
  induction D₁ generalizing st with
  | nil =>
    simp only [processSlices] at h
    injection h with h₁ _
    subst h₁
    rfl
  | cons p rest ih =>
    obtain ⟨f, i⟩ := p
    simp only [processSlices] at h ⊢
    cases hf : processFile cfg st f i with
    | mk stf err =>
      rw [hf] at h
      cases err with
      | none => exact ih stf h
      | some e => exact Option.noConfusion (congrArg Prod.snd h)

theorem discoverSlices_append (cfg : Config) (files₁ files₂ : List TdmsFileData) :
    discoverSlices cfg (files₁ ++ files₂) =
      discoverSlices cfg files₁ ++ discoverSlices cfg files₂ :=
  List.filterMap_append files₁ files₂ _

theorem discoverSlices_singleton (cfg : Config) (f : TdmsFileData) (i : Nat)
    (hext : extMatchesTdms f.ext = true)
    (hsearch : searchPrefixDigits cfg.pre f.stem = some i) :
    discoverSlices cfg [f] = [(f, i)] := by
  simp [discoverSlices, hext, hsearch]

/-! ## Canonical characterization of an error-free main pass

For order-independence, an error-free main pass is characterized by the
multiset of `(group name, slice index, node)` writes it performs: one write
per passing group of each discovered file.  The final registry holds exactly
the containers named by some write, and each container's node at index `i`
is the unique write for `(name, i)`. -/

/-- One slice-node write performed by the main pass. -/
abbrev Write := String × Nat × SliceNode

/-- The key identifying a write: destination container plus slice index. -/
def writeKey (w : Write) : String × Nat := (w.1, w.2.1)

/-- Look up the (first) write for a container name and slice index. -/
def findWrite (W : List Write) (name : String) (i : Nat) : Option SliceNode :=
  (W.find? fun w => w.1 == name && w.2.1 == i).map fun w => w.2.2

/-- The writes performed by one file's group loop. -/
def groupWrites (cfg : Config) (props : PropertyBag) (bg1 bg2 : ℚ) (i : Nat)
    (gs : List TdmsGroup) : List Write :=
  (gs.filter fun g => passesFilter cfg.groups g.name).map
    fun g => (g.name, i, (mkSliceNode props cfg bg1 bg2 g).1)

/-- The writes performed by one discovered file. -/
def fileWrites (cfg : Config) (f : TdmsFileData) (i : Nat) : List Write :=
  match fileBitgains f with
  | .error _ => []
  | .ok (bg1, bg2) => groupWrites cfg f.properties bg1 bg2 i f.groups

/-- The writes performed over a whole discovery list. -/
def runWrites (cfg : Config) (D : List (TdmsFileData × Nat)) : List Write :=
  D.flatMap fun p => fileWrites cfg p.1 p.2

theorem optOr_none_right {α : Type} (x : Option α) : optOr x none = x := by
  cases x <;> rfl

theorem findWrite_append (W₁ W₂ : List Write) (name : String) (i : Nat) :
    findWrite (W₁ ++ W₂) name i =
      optOr (findWrite W₁ name i) (findWrite W₂ name i) := by
  simp only [findWrite, List.find?_append]
  cases List.find? (fun w => w.1 == name && w.2.1 == i) W₁ <;>
    simp [optOr, Option.or]

theorem findWrite_singleton_self (name : String) (i : Nat) (node : SliceNode) :
    findWrite [(name, i, node)] name i = some node := by
  simp [findWrite]

theorem findWrite_singleton_ne (name name' : String) (i i' : Nat) (node : SliceNode)
    (h : ¬(name = name' ∧ i = i')) :
    findWrite [(name, i, node)] name' i' = none := by
  by_cases h₁ : name = name'
  · subst h₁
    have h₂ : ¬ i = i' := fun hi => h ⟨rfl, hi⟩
    have hb : (i == i') = false := beq_eq_false_iff_ne.mpr h₂
    simp [findWrite, List.find?, hb]
  · have hb : (name == name') = false := beq_eq_false_iff_ne.mpr h₁
    simp [findWrite, List.find?, hb]

theorem findWrite_eq_none_iff (W : List Write) (name : String) (i : Nat) :
    findWrite W name i = none ↔ ∀ w ∈ W, ¬(w.1 = name ∧ w.2.1 = i) := by
  unfold findWrite
  rw [Option.map_eq_none', List.find?_eq_none]
  constructor
  · intro h w hw hcontra
    exact h w hw (by simp [hcontra.1, hcontra.2])
  · intro h w hw hp
    simp only [Bool.and_eq_true, beq_iff_eq] at hp
    exact h w hw hp

theorem findWrite_perm {W₁ W₂ : List Write} (hperm : W₁.Perm W₂)
    (hnodup : (W₁.map writeKey).Nodup) (name : String) (i : Nat) :
    findWrite W₁ name i = findWrite W₂ name i := by
  cases h₁ : List.find? (fun w => w.1 == name && w.2.1 == i) W₁ with
  | none =>
    have hall := List.find?_eq_none.mp h₁
    have h₂ : List.find? (fun w => w.1 == name && w.2.1 == i) W₂ = none :=
      List.find?_eq_none.mpr fun w hw => hall w (hperm.mem_iff.mpr hw)
    simp [findWrite, h₁, h₂]
  | some w =>
    have hw₁ : w ∈ W₁ := List.mem_of_find?_eq_some h₁
    have hpw := List.find?_some h₁
    have hsome₂ : (List.find? (fun w => w.1 == name && w.2.1 == i) W₂).isSome = true :=
      List.find?_isSome.mpr ⟨w, hperm.mem_iff.mp hw₁, hpw⟩
    cases h₂ : List.find? (fun w => w.1 == name && w.2.1 == i) W₂ with
    | none => rw [h₂] at hsome₂; cases hsome₂
    | some w' =>
      have hw₂ : w' ∈ W₁ := hperm.mem_iff.mpr (List.mem_of_find?_eq_some h₂)
      have hpw' := List.find?_some h₂
      have hkey : writeKey w = writeKey w' := by
        simp only [Bool.and_eq_true, beq_iff_eq] at hpw hpw'
        simp [writeKey, hpw.1, hpw.2, hpw'.1, hpw'.2]
      have hww : w = w' := List.inj_on_of_nodup_map hnodup hw₁ hw₂ hkey
      subst hww
      simp [findWrite, h₁, h₂]

theorem aset_append_fresh {κ β : Type} [DecidableEq κ] {k : κ} (v v' : β)
    {l : List (κ × β)} (h : alookup k l = none) :
    aset k v' (l ++ [(k, v)]) = l ++ [(k, v')] := by
  induction l with
  | nil => simp [aset]
  | cons p rest ih =>
    obtain ⟨k₀, v₀⟩ := p
    by_cases h₀ : k₀ = k
    · rw [alookup, if_pos h₀] at h; cases h
    · rw [alookup, if_neg h₀] at h
      simp [aset, h₀, ih h]

/-- The state of an error-free main pass is determined by the performed
writes: registered containers are exactly those named by a write, each is a
`newContainer` not yet finalized, and its node map is the write map. -/
def ProcOk (cfg : Config) (W : List Write) (st : RunState) : Prop :=
  (∀ name, (alookup name st.h5Files).isSome = true ↔ ∃ w ∈ W, w.1 = name) ∧
  ∀ name c, alookup name st.h5Files = some c →
    c.filePath = cfg.outputDir ++ "/" ++ name ++ ".h5" ∧
    c.attrs = [("Version", TdmsValue.int 3)] ∧
    c.tdmsDataAttrs = [("TDMS_GroupName", TdmsValue.str name)] ∧
    c.index = none ∧ c.indexAttrs = [] ∧
    ∀ i, alookup i c.nodes = findWrite W name i

theorem procOk_empty (cfg : Config) : ProcOk cfg [] ⟨[], []⟩ := by
  constructor
  · intro name
    simp [alookup]
  · intro name c hc
    cases hc

/-- A container together with one appended slice node. -/
def withNode (c : Container) (idx : Nat) (node : SliceNode) : Container :=
  { c with nodes := c.nodes ++ [(idx, node)] }

theorem exists_write_append_singleton {W : List Write} {w₀ : Write} {name : String} :
    (∃ w ∈ W ++ [w₀], w.1 = name) ↔ (∃ w ∈ W, w.1 = name) ∨ w₀.1 = name := by
  constructor
  · rintro ⟨w, hw, h1⟩
    rcases List.mem_append.mp hw with hw | hw
    · exact Or.inl ⟨w, hw, h1⟩
    · rw [List.mem_singleton.mp hw] at h1
      exact Or.inr h1
  · rintro (⟨w, hw, h1⟩ | h1)
    · exact ⟨w, List.mem_append_left _ hw, h1⟩
    · exact ⟨w₀, List.mem_append_right _ (List.mem_singleton.mpr rfl), h1⟩

theorem writeKeys_nodup_append_singleton {W : List Write} (w₀ : Write)
    (hkeys : (W.map writeKey).Nodup)
    (hfresh : ∀ w ∈ W, ¬(w.1 = w₀.1 ∧ w.2.1 = w₀.2.1)) :
    ((W ++ [w₀]).map writeKey).Nodup := by
  simp only [List.map_append, List.map_cons, List.map_nil]
  rw [List.nodup_append]
  refine ⟨hkeys, List.nodup_singleton _, ?_⟩
  intro k hk hk'
  rw [List.mem_singleton.mp hk'] at hk
  obtain ⟨w, hw, hwk⟩ := List.mem_map.mp hk
  have h1 : w.1 = w₀.1 := by
    have := congrArg Prod.fst hwk
    simpa [writeKey] using this
  have h2 : w.2.1 = w₀.2.1 := by
    have := congrArg Prod.snd hwk
    simpa [writeKey] using this
  exact hfresh w hw ⟨h1, h2⟩

theorem findWrite_append_singleton_self (W : List Write) (name : String) (idx : Nat)
    (node : SliceNode) (i : Nat) :
    findWrite (W ++ [(name, idx, node)]) name i =
      optOr (findWrite W name i) (if idx = i then some node else none) := by
  rw [findWrite_append]
  congr 1
  by_cases hii : idx = i
  · subst hii
    rw [if_pos rfl, findWrite_singleton_self]
  · rw [if_neg hii, findWrite_singleton_ne _ _ _ _ _ (fun hcon => hii hcon.2)]

theorem findWrite_append_singleton_other (W : List Write) (name name' : String)
    (idx : Nat) (node : SliceNode) (i : Nat) (h : ¬ name = name') :
    findWrite (W ++ [(name, idx, node)]) name' i = findWrite W name' i := by
  rw [findWrite_append, findWrite_singleton_ne _ _ _ _ _ (fun hcon => h hcon.1),
    optOr_none_right]

theorem alookup_withNode (c : Container) (idx : Nat) (node : SliceNode) (i : Nat) :
    alookup i (withNode c idx node).nodes =
      optOr (alookup i c.nodes) (if idx = i then some node else none) := by
  by_cases hii : idx = i
  · subst hii
    rw [if_pos rfl]
    simp only [withNode, alookup_append, alookup_cons_self]
  · simp only [withNode, alookup_append, if_neg hii, alookup_cons_ne _ _ hii]
    rfl

theorem procOk_insert_existing (cfg : Config) (W : List Write) (st : RunState)
    (name : String) (c : Container) (idx : Nat) (node : SliceNode)
    (hchar : ProcOk cfg W st) (hkeys : (W.map writeKey).Nodup)
    (hc : alookup name st.h5Files = some c)
    (hn : alookup idx c.nodes = none) :
    ProcOk cfg (W ++ [(name, idx, node)])
      { st with h5Files := aset name (withNode c idx node) st.h5Files } ∧
    ((W ++ [(name, idx, node)]).map writeKey).Nodup := by
  obtain ⟨hnames, hconts⟩ := hchar
  obtain ⟨hpath, hattrs, htd, hidx0, hia, hnd⟩ := hconts name c hc
  have hfresh : ∀ w ∈ W, ¬(w.1 = name ∧ w.2.1 = idx) := by
    rw [← findWrite_eq_none_iff, ← hnd idx]
    exact hn
  refine ⟨⟨?_, ?_⟩, writeKeys_nodup_append_singleton _ hkeys hfresh⟩
  · intro name'
    rw [exists_write_append_singleton]
    show (alookup name' (aset name (withNode c idx node) st.h5Files)).isSome = true ↔ _
    rw [alookup_aset]
    by_cases hng : name = name'
    · subst hng
      rw [if_pos rfl]
      constructor
      · intro _
        exact Or.inr rfl
      · intro _
        rfl
    · rw [if_neg hng, hnames name']
      constructor
      · exact Or.inl
      · rintro (h | h)
        · exact h
        · exact absurd (show name = name' from h) hng
  · intro name' c' hc'
    rw [alookup_aset] at hc'
    by_cases hng : name = name'
    · subst hng
      rw [if_pos rfl] at hc'
      injection hc' with hc'
      subst hc'
      refine ⟨hpath, hattrs, htd, hidx0, hia, ?_⟩
      intro i
      rw [alookup_withNode, findWrite_append_singleton_self, hnd i]
    · rw [if_neg hng] at hc'
      obtain ⟨hp', ha', ht', hi', hia', hn'⟩ := hconts name' c' hc'
      refine ⟨hp', ha', ht', hi', hia', ?_⟩
      intro i
      rw [findWrite_append_singleton_other _ _ _ _ _ _ hng, hn' i]

theorem procOk_insert_fresh (cfg : Config) (W : List Write) (st : RunState)
    (name : String) (idx : Nat) (node : SliceNode)
    (hchar : ProcOk cfg W st) (hkeys : (W.map writeKey).Nodup)
    (hc : alookup name st.h5Files = none) :
    ProcOk cfg (W ++ [(name, idx, node)])
      { st with h5Files :=
          st.h5Files ++ [(name, withNode (newContainer cfg name) idx node)] } ∧
    ((W ++ [(name, idx, node)]).map writeKey).Nodup := by
  obtain ⟨hnames, hconts⟩ := hchar
  have hnoname : ∀ w ∈ W, w.1 ≠ name := by
    intro w hw hwn
    have hsome : (alookup name st.h5Files).isSome = true := (hnames name).mpr ⟨w, hw, hwn⟩
    rw [hc] at hsome
    cases hsome
  have hfresh : ∀ w ∈ W, ¬(w.1 = name ∧ w.2.1 = idx) :=
    fun w hw hcon => hnoname w hw hcon.1
  refine ⟨⟨?_, ?_⟩, writeKeys_nodup_append_singleton _ hkeys hfresh⟩
  · intro name'
    rw [exists_write_append_singleton]
    show (alookup name' (st.h5Files ++ _)).isSome = true ↔ _
    rw [alookup_append]
    by_cases hng : name = name'
    · subst hng
      rw [hc]
      simp only [optOr, alookup_cons_self]
      constructor
      · intro _
        exact Or.inr (by trivial)
      · intro _
        rfl
    · rw [alookup_cons_ne _ _ hng]
      rw [show alookup name' ([] : List (String × Container)) = none from rfl,
        optOr_none_right, hnames name']
      constructor
      · exact Or.inl
      · rintro (h | h)
        · exact h
        · exact absurd (show name = name' from h) hng
  · intro name' c' hc'
    rw [alookup_append] at hc'
    by_cases hng : name = name'
    · subst hng
      rw [hc] at hc'
      simp only [optOr, alookup_cons_self] at hc'
      injection hc' with hc'
      subst hc'
      refine ⟨rfl, rfl, rfl, rfl, rfl, ?_⟩
      intro i
      have hWnone : findWrite W name i = none :=
        (findWrite_eq_none_iff W name i).mpr fun w hw hcon => hnoname w hw hcon.1
      rw [findWrite_append_singleton_self, hWnone, alookup_withNode]
      rfl
    · rw [alookup_cons_ne _ _ hng,
        show alookup name' ([] : List (String × Container)) = none from rfl,
        optOr_none_right] at hc'
      obtain ⟨hp', ha', ht', hi', hia', hn'⟩ := hconts name' c' hc'
      refine ⟨hp', ha', ht', hi', hia', ?_⟩
      intro i
      rw [findWrite_append_singleton_other _ _ _ _ _ _ hng, hn' i]

theorem processGroup_ok_procOk (cfg : Config) (props : PropertyBag) (bg1 bg2 : ℚ)
    (idx : Nat) (st : RunState) (g : TdmsGroup) (st' : RunState) (W : List Write)
    (hrun : processGroup cfg props bg1 bg2 idx st g = (st', none))
    (hpass : passesFilter cfg.groups g.name = true)
    (hchar : ProcOk cfg W st) (hkeys : (W.map writeKey).Nodup) :
    ProcOk cfg (W ++ [(g.name, idx, (mkSliceNode props cfg bg1 bg2 g).1)]) st' ∧
    ((W ++ [(g.name, idx, (mkSliceNode props cfg bg1 bg2 g).1)]).map writeKey).Nodup := by
  cases hmk : mkSliceNode props cfg bg1 bg2 g with
  | mk node err =>
    simp only [processGroup, hpass, if_true] at hrun
    cases hc : alookup g.name st.h5Files with
    | some c =>
      rw [getOrCreateContainer_eq_found cfg st g.name c hc] at hrun
      cases hn : alookup idx c.nodes with
      | some n =>
        rw [hn] at hrun
        exact absurd (congrArg Prod.snd hrun) (by simp)
      | none =>
        rw [hn, hmk] at hrun
        have hst : st' =
            { st with h5Files := aset g.name (withNode c idx node) st.h5Files } :=
          (congrArg Prod.fst hrun).symm
        subst hst
        exact procOk_insert_existing cfg W st g.name c idx node ⟨hchar.1, hchar.2⟩
          hkeys hc hn
    | none =>
      rw [getOrCreateContainer_eq_fresh cfg st g.name hc] at hrun
      rw [show alookup idx (newContainer cfg g.name).nodes = (none : Option SliceNode)
        from rfl, hmk] at hrun
      have hst : st' = { st with h5Files := aset g.name (withNode (newContainer cfg g.name) idx node) (st.h5Files ++ [(g.name, newContainer cfg g.name)]) } :=
        (congrArg Prod.fst hrun).symm
      rw [aset_append_fresh _ _ hc] at hst
      subst hst
      exact procOk_insert_fresh cfg W st g.name idx node ⟨hchar.1, hchar.2⟩ hkeys hc

theorem groupWrites_cons_pass (cfg : Config) (props : PropertyBag) (bg1 bg2 : ℚ)
    (i : Nat) (g : TdmsGroup) (gs : List TdmsGroup)
    (hp : passesFilter cfg.groups g.name = true) :
    groupWrites cfg props bg1 bg2 i (g :: gs) =
      (g.name, i, (mkSliceNode props cfg bg1 bg2 g).1) ::
        groupWrites cfg props bg1 bg2 i gs := by
  simp [groupWrites, hp]

theorem groupWrites_cons_skip (cfg : Config) (props : PropertyBag) (bg1 bg2 : ℚ)
    (i : Nat) (g : TdmsGroup) (gs : List TdmsGroup)
    (hp : ¬ passesFilter cfg.groups g.name = true) :
    groupWrites cfg props bg1 bg2 i (g :: gs) = groupWrites cfg props bg1 bg2 i gs := by
  simp [groupWrites, List.filter, hp]

theorem processGroups_ok_procOk (cfg : Config) (props : PropertyBag) (bg1 bg2 : ℚ)
    (idx : Nat) (gs : List TdmsGroup) :
    ∀ (st st' : RunState) (W : List Write),
      processGroups cfg props bg1 bg2 idx st gs = (st', none) →
      ProcOk cfg W st → (W.map writeKey).Nodup →
      ProcOk cfg (W ++ groupWrites cfg props bg1 bg2 idx gs) st' ∧
      ((W ++ groupWrites cfg props bg1 bg2 idx gs).map writeKey).Nodup := by
  induction gs with
  | nil =>
    intro st st' W h hchar hkeys
    simp only [processGroups] at h
    injection h with h₁ _
    subst h₁
    have hgw : groupWrites cfg props bg1 bg2 idx [] = [] := rfl
    rw [hgw, List.append_nil]
    exact ⟨hchar, hkeys⟩
  | cons g gs ih =>
    intro st st' W h hchar hkeys
    simp only [processGroups] at h
    cases hg : processGroup cfg props bg1 bg2 idx st g with
    | mk st₁ err =>
      rw [hg] at h
      cases err with
      | some e => exact Option.noConfusion (congrArg Prod.snd h)
      | none =>
        have h' : processGroups cfg props bg1 bg2 idx st₁ gs = (st', none) := h
        by_cases hp : passesFilter cfg.groups g.name
        · obtain ⟨hchar₁, hkeys₁⟩ :=
            processGroup_ok_procOk cfg props bg1 bg2 idx st g st₁ W hg hp hchar hkeys
          obtain ⟨hchar₂, hkeys₂⟩ := ih st₁ st'
            (W ++ [(g.name, idx, (mkSliceNode props cfg bg1 bg2 g).1)]) h' hchar₁ hkeys₁
          rw [groupWrites_cons_pass cfg props bg1 bg2 idx g gs hp,
            show W ++ ((g.name, idx, (mkSliceNode props cfg bg1 bg2 g).1) ::
              groupWrites cfg props bg1 bg2 idx gs) =
              (W ++ [(g.name, idx, (mkSliceNode props cfg bg1 bg2 g).1)]) ++
              groupWrites cfg props bg1 bg2 idx gs from by simp]
          exact ⟨hchar₂, hkeys₂⟩
        · have hskip : processGroup cfg props bg1 bg2 idx st g = (st, none) := by
            simp [processGroup, hp]
          rw [hskip] at hg
          injection hg with hg₁ _
          subst hg₁
          rw [groupWrites_cons_skip cfg props bg1 bg2 idx g gs hp]
          exact ih _ st' W h' hchar hkeys

theorem processFile_ok_procOk (cfg : Config) (st : RunState) (f : TdmsFileData)
    (idx : Nat) (st' : RunState) (W : List Write)
    (hrun : processFile cfg st f idx = (st', none))
    (hchar : ProcOk cfg W st) (hkeys : (W.map writeKey).Nodup) :
    ProcOk cfg (W ++ fileWrites cfg f idx) st' ∧
    ((W ++ fileWrites cfg f idx).map writeKey).Nodup := by
  simp only [processFile] at hrun
  have hchar' : ProcOk cfg W { st with sliceIndices := st.sliceIndices ++ [idx] } :=
    ⟨hchar.1, hchar.2⟩
  cases hbg : fileBitgains f with
  | error e =>
    rw [hbg] at hrun
    exact absurd (congrArg Prod.snd hrun) (by simp)
  | ok p =>
    obtain ⟨bg1, bg2⟩ := p
    rw [hbg] at hrun
    have hfw : fileWrites cfg f idx = groupWrites cfg f.properties bg1 bg2 idx f.groups := by
      simp [fileWrites, hbg]
    rw [hfw]
    exact processGroups_ok_procOk cfg f.properties bg1 bg2 idx f.groups _ st' W hrun
      hchar' hkeys

theorem runWrites_cons (cfg : Config) (p : TdmsFileData × Nat)
    (D : List (TdmsFileData × Nat)) :
    runWrites cfg (p :: D) = fileWrites cfg p.1 p.2 ++ runWrites cfg D := rfl

theorem processSlices_ok_procOk (cfg : Config) (D : List (TdmsFileData × Nat)) :
    ∀ (st st' : RunState) (W : List Write),
      processSlices cfg st D = (st', none) →
      ProcOk cfg W st → (W.map writeKey).Nodup →
      ProcOk cfg (W ++ runWrites cfg D) st' ∧
      ((W ++ runWrites cfg D).map writeKey).Nodup := by
  induction D with
  | nil =>
    intro st st' W h hchar hkeys
    simp only [processSlices] at h
    injection h with h₁ _
    subst h₁
    have hrw : runWrites cfg [] = [] := rfl
    rw [hrw, List.append_nil]
    exact ⟨hchar, hkeys⟩
  | cons p D ih =>
    intro st st' W h hchar hkeys
    obtain ⟨f, i⟩ := p
    simp only [processSlices] at h
    cases hf : processFile cfg st f i with
    | mk st₁ err =>
      rw [hf] at h
      cases err with
      | some e => exact Option.noConfusion (congrArg Prod.snd h)
      | none =>
        have h' : processSlices cfg st₁ D = (st', none) := h
        obtain ⟨hchar₁, hkeys₁⟩ := processFile_ok_procOk cfg st f i st₁ W hf hchar hkeys
        obtain ⟨hchar₂, hkeys₂⟩ := ih st₁ st' (W ++ fileWrites cfg f i) h' hchar₁ hkeys₁
        rw [runWrites_cons,
          show W ++ (fileWrites cfg (f, i).1 (f, i).2 ++ runWrites cfg D) =
            (W ++ fileWrites cfg f i) ++ runWrites cfg D from by simp]
        exact ⟨hchar₂, hkeys₂⟩

theorem processSlices_characterize (cfg : Config) (D : List (TdmsFileData × Nat))
    (st' : RunState) (h : processSlices cfg ⟨[], []⟩ D = (st', none)) :
    ProcOk cfg (runWrites cfg D) st' ∧ ((runWrites cfg D).map writeKey).Nodup := by
  have := processSlices_ok_procOk cfg D ⟨[], []⟩ st' [] h (procOk_empty cfg) (by simp)
  simpa using this

/-! ## Observables, index rows as functions of the node map, sorting -/

/-- What a reader observes of one finished container, independent of HDF5
iteration order: path, attribute sets and the `Index` dataset. -/
structure ContainerObs where
  filePath : String
  attrs : List (String × TdmsValue)
  tdmsDataAttrs : List (String × TdmsValue)
  index : Option (List (Nat × Int × Nat))
  indexAttrs : List (String × TdmsValue)
deriving DecidableEq, Repr

/-- Observation of the container registered under `name`, if any. -/
def containerObs (st : RunState) (name : String) : Option ContainerObs :=
  (alookup name st.h5Files).map fun c =>
    ⟨c.filePath, c.attrs, c.tdmsDataAttrs, c.index, c.indexAttrs⟩

/-- Observation of the slice node stored at index `i` of the container
registered under `name`, if any. -/
def nodeObs (st : RunState) (name : String) (i : Nat) : Option SliceNode :=
  match alookup name st.h5Files with
  | none => none
  | some c => alookup i c.nodes

/-- The index row the finalizer computes for slice `i` of container `c`,
as a function of the container's node map alone. -/
def rowFor (c : Container) (i : Nat) : Option (Nat × Int × Nat) :=
  match alookup i c.nodes with
  | none => none
  | some n =>
    match readLayerThickness n with
    | .error _ => none
    | .ok t =>
      match alookup "X-Axis" n.datasets with
      | none => none
      | some d => some (i, t, d.data.length)

/-- All index rows, as a function of the node map. -/
def rowsFor (c : Container) : List Nat → Option (List (Nat × Int × Nat))
  | [] => some []
  | i :: is =>
    match rowFor c i, rowsFor c is with
    | some r, some rs => some (r :: rs)
    | _, _ => none

theorem buildIndexRows_ok_rowsFor {c : Container} {idxs : List Nat}
    {rows : List (Nat × Int × Nat)} (h : buildIndexRows c idxs = .ok rows) :
    rowsFor c idxs = some rows := by
  induction idxs generalizing rows with
  | nil =>
    simp only [buildIndexRows] at h
    injection h with h
    subst h
    rfl
  | cons i is ih =>
    simp only [buildIndexRows] at h
    cases hn : alookup i c.nodes with
    | none => simp only [hn] at h; cases h
    | some n =>
      simp only [hn] at h
      cases ht : readLayerThickness n with
      | error e => simp only [ht] at h; cases h
      | ok t =>
        simp only [ht] at h
        cases hd : alookup "X-Axis" n.datasets with
        | none => simp only [hd] at h; cases h
        | some d =>
          simp only [hd] at h
          cases hrec : buildIndexRows c is with
          | error e => simp only [hrec] at h; cases h
          | ok rows' =>
            simp only [hrec, Except.ok.injEq] at h
            subst h
            simp [rowsFor, rowFor, hn, ht, hd, ih hrec]

theorem rowsFor_congr {c₁ c₂ : Container} (idxs : List Nat)
    (h : ∀ i, alookup i c₁.nodes = alookup i c₂.nodes) :
    rowsFor c₁ idxs = rowsFor c₂ idxs := by
  have hr : ∀ i, rowFor c₁ i = rowFor c₂ i := by
    intro i
    simp only [rowFor, h i]
  induction idxs with
  | nil => rfl
  | cons i is ih => simp only [rowsFor, hr i, ih]

theorem insertionSort_perm_eq {l₁ l₂ : List Nat} (h : l₁.Perm l₂) :
    List.insertionSort (· ≤ ·) l₁ = List.insertionSort (· ≤ ·) l₂ :=
  @List.eq_of_perm_of_sorted Nat (· ≤ ·) inferInstance _ _
    (((List.perm_insertionSort _ l₁).trans h).trans
      (List.perm_insertionSort _ l₂).symm)
    (List.sorted_insertionSort _ l₁) (List.sorted_insertionSort _ l₂)

theorem insertionSort_chain_lt {l : List Nat} (h : l.Nodup) :
    List.Chain' (· < ·) (List.insertionSort (· ≤ ·) l) := by
  have hs : List.Sorted (· ≤ ·) (List.insertionSort (· ≤ ·) l) :=
    List.sorted_insertionSort _ l
  have hn : (List.insertionSort (· ≤ ·) l).Nodup :=
    ((List.perm_insertionSort _ l).nodup_iff).mpr h
  have hp : List.Pairwise (· < ·) (List.insertionSort (· ≤ ·) l) :=
    (hs.and hn).imp fun hab => lt_of_le_of_ne hab.1 hab.2
  exact hp.chain'

theorem insertionSort_mem_iff (l : List Nat) (i : Nat) :
    i ∈ List.insertionSort (· ≤ ·) l ↔ i ∈ l :=
  (List.perm_insertionSort _ l).mem_iff

theorem finalizeContainers_lookup_none (idxs : List Nat)
    (l : List (String × Container)) (name : String)
    (h : alookup name l = none) :
    alookup name (finalizeContainers idxs l).1 = none := by
  cases hl : alookup name (finalizeContainers idxs l).1 with
  | none => rfl
  | some c =>
    have h1 : (alookup name (finalizeContainers idxs l).1).isSome = true := by
      rw [hl]; rfl
    rw [alookup_isSome_iff_mem_keys, finalizeContainers_keys] at h1
    have h2 := alookup_isSome_iff_mem_keys.mpr h1
    rw [h] at h2
    cases h2

/-! ## Concrete fixtures used by witnesses and counterexamples -/

/-- A default configuration: output under `out`, prefix `Slice`, all offsets
zero, no group filter. -/
def cfg0 : Config := ⟨"out", "Slice".toList, 0, 0, 0, []⟩

/-- Six standard channels, one sample each. -/
def stdChannels : List (String × List ℚ) :=
  [("LaserTTL", [1]), ("Area", [2]), ("Intensity", [3]), ("Parameter", [4]),
   ("X-Axis", [5]), ("Y-Axis", [6])]

/-- File-level properties carrying both bitgains. -/
def bitgainProps : PropertyBag :=
  [("Bitgain OS 1", .float 1), ("Bitgain OS 2", .float 1)]

/-- A group named `name` whose part properties carry `layerThickness`. -/
def groupWith (name : String) (t : Int) : TdmsGroup :=
  ⟨name, [("layerThickness", .int t)], stdChannels⟩

/-- A group named `name` without a `layerThickness` property. -/
def groupNoThickness (name : String) : TdmsGroup := ⟨name, [], stdChannels⟩

/-- A `.tdms` file with the given stem and groups. -/
def mkFile (stem : String) (gs : List TdmsGroup) : TdmsFileData :=
  ⟨stem.toList, "tdms".toList, bitgainProps, gs⟩

def cexA : TdmsFileData := mkFile "Slice1" [groupWith "A" 30]

def cexB : TdmsFileData := mkFile "Slice2" [groupWith "B" 40]

def c9f1 : TdmsFileData := mkFile "Slice1" [groupWith "A" 30, groupNoThickness "B"]

def c9f2 : TdmsFileData := mkFile "Slice2" [groupWith "B" 40, groupWith "A" 35]

def okFile1 : TdmsFileData := mkFile "Slice1" [groupWith "A" 30, groupWith "B" 40]

def okFile2 : TdmsFileData := mkFile "Slice2" [groupWith "A" 35, groupWith "B" 45]

def dupFile : TdmsFileData := mkFile "XSlice1" [groupWith "A" 50]

/-! ## The claims -/

/-- C3 counterexample: the claim says a nonexistent input directory makes
the conversion fail with a `ConfigurationError`; in the code
`input_dir.glob(...)` on a nonexistent directory yields no entries, there is
no existence check and no `ConfigurationError` anywhere, and the run
completes without error producing no containers. -/
theorem c3_counterexample :
    (runTdms2h5 cfg0 none).2 = none ∧ (runTdms2h5 cfg0 none).1.h5Files = [] :=
  ⟨rfl, rfl⟩

/-- C3 amended: a nonexistent input directory behaves as an empty directory:
discovery yields nothing and the conversion completes without error,
producing no output containers. -/
theorem c3_nonexistent_dir_completes (cfg : Config) :
    runTdms2h5 cfg none = (⟨[], []⟩, none) := rfl

/-- C4: slice discovery yields a `(file, slice_index)` pair exactly for the
files whose extension case-insensitively matches `tdms` and whose stem
contains the prefix followed by one or more digits (the `re.search`
semantics of the code), with the slice index the value of the captured
digit run; all other files are skipped silently (discovery is a total
function and raises nothing).  The second conjunct shows the captured run
really is an occurrence of the prefix followed by a nonempty digit run in
the stem, and the third that any such occurrence makes the search (and so
discovery of that file) succeed. -/
theorem c4_slice_discovery (cfg : Config) (files : List TdmsFileData)
    (f : TdmsFileData) (i : Nat) :
    ((f, i) ∈ discoverSlices cfg files ↔
      f ∈ files ∧ extMatchesTdms f.ext = true ∧
        searchPrefixDigits cfg.pre f.stem = some i) ∧
    (searchPrefixDigits cfg.pre f.stem = some i →
      ∃ a ds b, f.stem = a ++ cfg.pre ++ ds ++ b ∧ ds ≠ [] ∧
        (∀ c ∈ ds, c.isDigit = true) ∧ i = digitsToNat ds) ∧
    (∀ a d b, f.stem = a ++ cfg.pre ++ d :: b → d.isDigit = true →
      (searchPrefixDigits cfg.pre f.stem).isSome = true) := by
  refine ⟨?_, ?_, ?_⟩
  · rw [discoverSlices, List.mem_filterMap]
    constructor
    · rintro ⟨f', hf', heq⟩
      by_cases hext : extMatchesTdms f'.ext
      · rw [if_pos hext] at heq
        cases hs : searchPrefixDigits cfg.pre f'.stem with
        | none => rw [hs] at heq; cases heq
        | some j =>
          rw [hs] at heq
          simp only [Option.map_some', Option.some.injEq, Prod.mk.injEq] at heq
          obtain ⟨rfl, rfl⟩ := heq
          exact ⟨hf', hext, hs⟩
      · rw [if_neg hext] at heq
        cases heq
    · rintro ⟨hf, hext, hs⟩
      refine ⟨f, hf, ?_⟩
      rw [if_pos hext, hs]
      rfl
  · intro hs
    exact searchPrefixDigits_sound hs
  · intro a d b heq hd
    have hds : ∀ c ∈ [d], c.isDigit = true := by
      intro c hc
      rw [List.mem_singleton.mp hc]
      exact hd
    have hcomp := @searchPrefixDigits_complete cfg.pre a [d] b (by simp) hds
    rw [heq, show a ++ cfg.pre ++ d :: b = a ++ cfg.pre ++ [d] ++ b from by simp]
    exact hcomp

/-- C4 witness: with prefix `Slice`, the file `Slice1.tdms` is discovered
with slice index 1. -/
theorem c4_witness : (cexA, 1) ∈ discoverSlices cfg0 [cexA] :=
  (c4_slice_discovery cfg0 [cexA] cexA 1).1.mpr ⟨by decide, by decide, by decide⟩

/-- C5: for a group whose six channels all have length `n` and offsets at
most `n / 2`, the stored `LaserTTL` is the input restricted to positions
`[laser_offset, n - laser_offset)` (length `n - 2 * laser_offset`), `Area`
and `Intensity` are trimmed the same way by their own offsets, `Parameter`
is stored untrimmed at full length `n`, and a zero offset stores the channel
unchanged. -/
theorem c5_channel_alignment (cfg : Config) (props : PropertyBag) (bg1 bg2 : ℚ)
    (g : TdmsGroup) (n : Nat) (laser area intensity param xs ys : List ℚ)
    (hL : alookup "LaserTTL" g.channels = some laser)
    (hA : alookup "Area" g.channels = some area)
    (hI : alookup "Intensity" g.channels = some intensity)
    (hP : alookup "Parameter" g.channels = some param)
    (hX : alookup "X-Axis" g.channels = some xs)
    (hY : alookup "Y-Axis" g.channels = some ys)
    (hlenL : laser.length = n) (hlenA : area.length = n)
    (hlenI : intensity.length = n) (hlenP : param.length = n)
    (hoffL : 2 * cfg.laserOffset ≤ n) (hoffA : 2 * cfg.areaOffset ≤ n)
    (hoffI : 2 * cfg.intensityOffset ≤ n) :
    ∃ dsL dsA dsI dsP : Dataset,
      alookup "LaserTTL" (mkSliceNode props cfg bg1 bg2 g).1.datasets = some dsL ∧
      dsL.data = sliceTrim cfg.laserOffset laser ∧
      dsL.data.length = n - 2 * cfg.laserOffset ∧
      (∀ k, k < n - 2 * cfg.laserOffset →
        dsL.data[k]? = laser[cfg.laserOffset + k]?) ∧
      (cfg.laserOffset = 0 → dsL.data = laser) ∧
      alookup "Area" (mkSliceNode props cfg bg1 bg2 g).1.datasets = some dsA ∧
      dsA.data = sliceTrim cfg.areaOffset area ∧
      dsA.data.length = n - 2 * cfg.areaOffset ∧
      (∀ k, k < n - 2 * cfg.areaOffset →
        dsA.data[k]? = area[cfg.areaOffset + k]?) ∧
      (cfg.areaOffset = 0 → dsA.data = area) ∧
      alookup "Intensity" (mkSliceNode props cfg bg1 bg2 g).1.datasets = some dsI ∧
      dsI.data = sliceTrim cfg.intensityOffset intensity ∧
      dsI.data.length = n - 2 * cfg.intensityOffset ∧
      (∀ k, k < n - 2 * cfg.intensityOffset →
        dsI.data[k]? = intensity[cfg.intensityOffset + k]?) ∧
      (cfg.intensityOffset = 0 → dsI.data = intensity) ∧
      alookup "Parameter" (mkSliceNode props cfg bg1 bg2 g).1.datasets = some dsP ∧
      dsP.data = param ∧ dsP.data.length = n := by
  rw [mkSliceNode_eq props cfg bg1 bg2 hL hA hI hP hX hY]
  have hL' : 2 * cfg.laserOffset ≤ laser.length := by rw [hlenL]; exact hoffL
  have hA' : 2 * cfg.areaOffset ≤ area.length := by rw [hlenA]; exact hoffA
  have hI' : 2 * cfg.intensityOffset ≤ intensity.length := by rw [hlenI]; exact hoffI
  refine ⟨_, _, _, _, rfl, rfl, by rw [sliceTrim_length hL', hlenL],
    fun k hk => sliceTrim_getElem _ _ (by rw [hlenL]; exact hk),
    fun h0 => by rw [h0, sliceTrim_zero],
    rfl, rfl, by rw [sliceTrim_length hA', hlenA],
    fun k hk => sliceTrim_getElem _ _ (by rw [hlenA]; exact hk),
    fun h0 => by rw [h0, sliceTrim_zero],
    rfl, rfl, by rw [sliceTrim_length hI', hlenI],
    fun k hk => sliceTrim_getElem _ _ (by rw [hlenI]; exact hk),
    fun h0 => by rw [h0, sliceTrim_zero],
    rfl, rfl, hlenP⟩

/-- C5 witness: a group with channels of length 6, laser offset 1, area
offset 2, intensity offset 0. -/
theorem c5_witness :
    ∃ dsL dsA dsI dsP : Dataset,
      alookup "LaserTTL"
        (mkSliceNode [] ⟨"out", "Slice".toList, 2, 0, 1, []⟩ 1 1
          ⟨"G", [], [("LaserTTL", [0, 1, 2, 3, 4, 5]), ("Area", [0, 1, 2, 3, 4, 5]),
            ("Intensity", [0, 1, 2, 3, 4, 5]), ("Parameter", [0, 1, 2, 3, 4, 5]),
            ("X-Axis", [0, 1, 2, 3, 4, 5]), ("Y-Axis", [0, 1, 2, 3, 4, 5])]⟩).1.datasets =
        some dsL ∧
      dsL.data = sliceTrim 1 [0, 1, 2, 3, 4, 5] ∧
      dsL.data.length = 6 - 2 * 1 ∧
      (∀ k, k < 6 - 2 * 1 → dsL.data[k]? = [(0 : ℚ), 1, 2, 3, 4, 5][1 + k]?) ∧
      (1 = 0 → dsL.data = [0, 1, 2, 3, 4, 5]) ∧
      alookup "Area"
        (mkSliceNode [] ⟨"out", "Slice".toList, 2, 0, 1, []⟩ 1 1
          ⟨"G", [], [("LaserTTL", [0, 1, 2, 3, 4, 5]), ("Area", [0, 1, 2, 3, 4, 5]),
            ("Intensity", [0, 1, 2, 3, 4, 5]), ("Parameter", [0, 1, 2, 3, 4, 5]),
            ("X-Axis", [0, 1, 2, 3, 4, 5]), ("Y-Axis", [0, 1, 2, 3, 4, 5])]⟩).1.datasets =
        some dsA ∧
      dsA.data = sliceTrim 2 [0, 1, 2, 3, 4, 5] ∧
      dsA.data.length = 6 - 2 * 2 ∧
      (∀ k, k < 6 - 2 * 2 → dsA.data[k]? = [(0 : ℚ), 1, 2, 3, 4, 5][2 + k]?) ∧
      (2 = 0 → dsA.data = [0, 1, 2, 3, 4, 5]) ∧
      alookup "Intensity"
        (mkSliceNode [] ⟨"out", "Slice".toList, 2, 0, 1, []⟩ 1 1
          ⟨"G", [], [("LaserTTL", [0, 1, 2, 3, 4, 5]), ("Area", [0, 1, 2, 3, 4, 5]),
            ("Intensity", [0, 1, 2, 3, 4, 5]), ("Parameter", [0, 1, 2, 3, 4, 5]),
            ("X-Axis", [0, 1, 2, 3, 4, 5]), ("Y-Axis", [0, 1, 2, 3, 4, 5])]⟩).1.datasets =
        some dsI ∧
      dsI.data = sliceTrim 0 [0, 1, 2, 3, 4, 5] ∧
      dsI.data.length = 6 - 2 * 0 ∧
      (∀ k, k < 6 - 2 * 0 → dsI.data[k]? = [(0 : ℚ), 1, 2, 3, 4, 5][0 + k]?) ∧
      (0 = 0 → dsI.data = [0, 1, 2, 3, 4, 5]) ∧
      alookup "Parameter"
        (mkSliceNode [] ⟨"out", "Slice".toList, 2, 0, 1, []⟩ 1 1
          ⟨"G", [], [("LaserTTL", [0, 1, 2, 3, 4, 5]), ("Area", [0, 1, 2, 3, 4, 5]),
            ("Intensity", [0, 1, 2, 3, 4, 5]), ("Parameter", [0, 1, 2, 3, 4, 5]),
            ("X-Axis", [0, 1, 2, 3, 4, 5]), ("Y-Axis", [0, 1, 2, 3, 4, 5])]⟩).1.datasets =
        some dsP ∧
      dsP.data = [0, 1, 2, 3, 4, 5] ∧ dsP.data.length = 6 :=
  c5_channel_alignment ⟨"out", "Slice".toList, 2, 0, 1, []⟩ [] 1 1 _ 6
    [0, 1, 2, 3, 4, 5] [0, 1, 2, 3, 4, 5] [0, 1, 2, 3, 4, 5] [0, 1, 2, 3, 4, 5]
    [0, 1, 2, 3, 4, 5] [0, 1, 2, 3, 4, 5] (by decide) (by decide) (by decide)
    (by decide) (by decide) (by decide) (by decide) (by decide) (by decide)
    (by decide) (by decide) (by decide) (by decide)

/-- C6: for every group-slice (all six channels present), the stored
`X-Axis` dataset is the input `X-Axis` with every sample divided by
`bitgain_1` (`Y-Axis` divided by `bitgain_2`), untrimmed (the length and
every position are preserved), tagged as 32-bit floating point regardless of
the input's own type, and carrying a `Units` attribute of micrometers. -/
theorem c6_axis_scaling (cfg : Config) (props : PropertyBag) (bg1 bg2 : ℚ)
    (g : TdmsGroup) (laser area intensity param xs ys : List ℚ)
    (hL : alookup "LaserTTL" g.channels = some laser)
    (hA : alookup "Area" g.channels = some area)
    (hI : alookup "Intensity" g.channels = some intensity)
    (hP : alookup "Parameter" g.channels = some param)
    (hX : alookup "X-Axis" g.channels = some xs)
    (hY : alookup "Y-Axis" g.channels = some ys) :
    (mkSliceNode props cfg bg1 bg2 g).2 = none ∧
    ∃ dsX dsY : Dataset,
      alookup "X-Axis" (mkSliceNode props cfg bg1 bg2 g).1.datasets = some dsX ∧
      dsX.data = xs.map (· / bg1) ∧ dsX.dtype = DType.float32 ∧
      dsX.data.length = xs.length ∧
      (∀ k : Nat, dsX.data[k]? = (xs[k]?).map (· / bg1)) ∧
      alookup "Units" dsX.attrs = some (.str "μm") ∧
      alookup "Y-Axis" (mkSliceNode props cfg bg1 bg2 g).1.datasets = some dsY ∧
      dsY.data = ys.map (· / bg2) ∧ dsY.dtype = DType.float32 ∧
      dsY.data.length = ys.length ∧
      (∀ k : Nat, dsY.data[k]? = (ys[k]?).map (· / bg2)) ∧
      alookup "Units" dsY.attrs = some (.str "μm") := by
  rw [mkSliceNode_eq props cfg bg1 bg2 hL hA hI hP hX hY]
  exact ⟨rfl, _, _, rfl, rfl, rfl, by simp,
    fun k => by simp, rfl, rfl, rfl, rfl, by simp, fun k => by simp, rfl⟩

/-- C6 witness: with bitgains 2 and 4, the axes are divided accordingly and
stored as float32 with a micrometer unit. -/
theorem c6_witness :
    (mkSliceNode bitgainProps cfg0 2 4 (groupWith "A" 30)).2 = none ∧
    ∃ dsX dsY : Dataset,
      alookup "X-Axis"
        (mkSliceNode bitgainProps cfg0 2 4 (groupWith "A" 30)).1.datasets = some dsX ∧
      dsX.data = [(5 : ℚ)].map (· / 2) ∧ dsX.dtype = DType.float32 ∧
      dsX.data.length = [(5 : ℚ)].length ∧
      (∀ k : Nat, dsX.data[k]? = ([(5 : ℚ)][k]?).map (· / 2)) ∧
      alookup "Units" dsX.attrs = some (.str "μm") ∧
      alookup "Y-Axis"
        (mkSliceNode bitgainProps cfg0 2 4 (groupWith "A" 30)).1.datasets = some dsY ∧
      dsY.data = [(6 : ℚ)].map (· / 4) ∧ dsY.dtype = DType.float32 ∧
      dsY.data.length = [(6 : ℚ)].length ∧
      (∀ k : Nat, dsY.data[k]? = ([(6 : ℚ)][k]?).map (· / 4)) ∧
      alookup "Units" dsY.attrs = some (.str "μm") :=
  c6_axis_scaling cfg0 bitgainProps 2 4 (groupWith "A" 30)
    [1] [2] [3] [4] [5] [6] (by decide) (by decide) (by decide) (by decide)
    (by decide) (by decide)

/-- C7: the attributes attached to a slice node are the layer-level bag
written first and the part-level bag written on top of it, each key renamed
through its replacement table (`StartTime`/`EndTime` to
`LayerStartTime`/`LayerEndTime` for the layer bag and
`PartStartTime`/`PartEndTime` for the part bag) and kept unchanged when
absent from the table; timestamp values are serialized to the
microsecond-precision UTC text rendering and all other values are written
as-is; on any key collision after renaming the part-level value wins
(looked up first), falling back to the layer-level value. -/
theorem c7_property_merge (layerBag partBag : PropertyBag)
    (hLn : ((bagImage layerReplacements layerBag).map Prod.fst).Nodup)
    (hPn : ((bagImage partReplacements partBag).map Prod.fst).Nodup) :
    (∀ k, alookup k (mergedSliceAttrs layerBag partBag) =
      optOr (alookup k (bagImage partReplacements partBag))
        (alookup k (bagImage layerReplacements layerBag))) ∧
    renameKey layerReplacements "StartTime" = "LayerStartTime" ∧
    renameKey layerReplacements "EndTime" = "LayerEndTime" ∧
    renameKey partReplacements "StartTime" = "PartStartTime" ∧
    renameKey partReplacements "EndTime" = "PartEndTime" ∧
    (∀ k, alookup k layerReplacements = none → renameKey layerReplacements k = k) ∧
    (∀ k, alookup k partReplacements = none → renameKey partReplacements k = k) ∧
    (∀ t, serializeValue (.timestamp t) = .str (datetimeAsStringUsUTC t)) ∧
    (∀ x : Int, serializeValue (.int x) = .int x) ∧
    (∀ q : ℚ, serializeValue (.float q) = .float q) ∧
    (∀ s : String, serializeValue (.str s) = .str s) := by
  refine ⟨?_, rfl, rfl, rfl, rfl, ?_, ?_, fun t => rfl, fun x => rfl,
    fun q => rfl, fun s => rfl⟩
  · intro k
    unfold mergedSliceAttrs
    rw [alookup_writeTdmsProperties partBag partReplacements _ k hPn,
      alookup_writeTdmsProperties layerBag layerReplacements _ k hLn]
    rw [show alookup k ([] : List (String × TdmsValue)) = none from rfl,
      optOr_none_right]
  · intro k h
    unfold renameKey
    rw [h]
  · intro k h
    unfold renameKey
    rw [h]

/-- C7 witness: a layer bag and a part bag sharing the key `StartTime` (a
timestamp) and the key `foo`; the merged attributes are characterized by the
theorem, with the part value winning the `foo` collision. -/
theorem c7_witness :
    ((bagImage layerReplacements
        [("StartTime", .timestamp 0), ("foo", .int 1)]).map Prod.fst).Nodup ∧
    ((bagImage partReplacements
        [("StartTime", .timestamp 86400000000), ("foo", .int 2)]).map Prod.fst).Nodup ∧
    (∀ k, alookup k (mergedSliceAttrs
        [("StartTime", .timestamp 0), ("foo", .int 1)]
        [("StartTime", .timestamp 86400000000), ("foo", .int 2)]) =
      optOr (alookup k (bagImage partReplacements
          [("StartTime", .timestamp 86400000000), ("foo", .int 2)]))
        (alookup k (bagImage layerReplacements
          [("StartTime", .timestamp 0), ("foo", .int 1)]))) ∧
    alookup "foo" (mergedSliceAttrs
        [("StartTime", .timestamp 0), ("foo", .int 1)]
        [("StartTime", .timestamp 86400000000), ("foo", .int 2)]) =
      some (.int 2) ∧
    alookup "LayerStartTime" (mergedSliceAttrs
        [("StartTime", .timestamp 0), ("foo", .int 1)]
        [("StartTime", .timestamp 86400000000), ("foo", .int 2)]) =
      some (.str "1970-01-01T00:00:00.000000Z") ∧
    alookup "PartStartTime" (mergedSliceAttrs
        [("StartTime", .timestamp 0), ("foo", .int 1)]
        [("StartTime", .timestamp 86400000000), ("foo", .int 2)]) =
      some (.str "1970-01-02T00:00:00.000000Z") :=
  ⟨by decide, by decide,
   (c7_property_merge _ _ (by decide) (by decide)).1,
   by decide, by decide, by decide⟩

/-- C2: if every global slice index has a node in the container but some
node lacks the `layerThickness` attribute, finalization of that container
fails with a data error (the spec taxonomy's `DataError`, the code's
`KeyError`), the container is returned unchanged — every slice node already
written is retained — and no `Index` dataset is written to it. -/
theorem c2_missing_layer_thickness (idxs : List Nat) (c : Container)
    (hidx : c.index = none)
    (hnodes : ∀ i ∈ idxs, (alookup i c.nodes).isSome = true)
    (hmiss : ∃ i ∈ idxs, (alookup i c.nodes).any
      (fun n => (alookup "layerThickness" n.attrs).isNone) = true) :
    ∃ e, finalizeContainer idxs c = (c, some e) ∧ e.isDataError = true ∧
      (finalizeContainer idxs c).1.nodes = c.nodes ∧
      (finalizeContainer idxs c).1.index = none := by
  obtain ⟨e, herr, hde⟩ := buildIndexRows_error_of_missing hnodes hmiss
  have hfc : finalizeContainer idxs c = (c, some e) := by
    simp [finalizeContainer, herr]
  exact ⟨e, hfc, hde, by rw [hfc], by rw [hfc]; exact hidx⟩

/-- C2 witness: a container holding one slice node without `layerThickness`;
finalization fails and leaves it untouched. -/
theorem c2_witness :
    ∃ e, finalizeContainer [1]
        ⟨"out/A.h5", [("Version", .int 3)], [("TDMS_GroupName", .str "A")],
          [(1, ⟨[], []⟩)], none, []⟩ =
      (⟨"out/A.h5", [("Version", .int 3)], [("TDMS_GroupName", .str "A")],
          [(1, ⟨[], []⟩)], none, []⟩, some e) ∧
    e.isDataError = true ∧
    (finalizeContainer [1]
        ⟨"out/A.h5", [("Version", .int 3)], [("TDMS_GroupName", .str "A")],
          [(1, ⟨[], []⟩)], none, []⟩).1.nodes = [(1, ⟨[], []⟩)] ∧
    (finalizeContainer [1]
        ⟨"out/A.h5", [("Version", .int 3)], [("TDMS_GroupName", .str "A")],
          [(1, ⟨[], []⟩)], none, []⟩).1.index = none :=
  c2_missing_layer_thickness [1] _ (by decide) (by decide) (by decide)

theorem finalize_wf (cfg : Config) (idxs : List Nat)
    (l : List (String × Container)) (hwf : WfContainers cfg l) :
    WfContainers cfg (finalizeContainers idxs l).1 := by
  obtain ⟨hnodup, hprops⟩ := hwf
  constructor
  · rw [finalizeContainers_keys]
    exact hnodup
  · intro name c' hc'
    cases hl : alookup name l with
    | none =>
      rw [finalizeContainers_lookup_none idxs l name hl] at hc'
      cases hc'
    | some c =>
      obtain ⟨c'', hc'', hfp, hat, htd, _⟩ :=
        finalizeContainers_lookup_extends idxs l name c hl
      rw [hc''] at hc'
      injection hc' with hc'
      subst hc'
      obtain ⟨h1, h2, h3⟩ := hprops name c hl
      exact ⟨hfp.trans h1, hat.trans h2, htd.trans h3⟩

theorem runTdms2h5_getD (cfg : Config) (dir : Option (List TdmsFileData)) :
    runTdms2h5 cfg dir = runTdms2h5 cfg (some (dir.getD [])) := by
  cases dir <;> rfl

theorem runTdms2h5_wf (cfg : Config) (dir : Option (List TdmsFileData)) :
    WfContainers cfg (runTdms2h5 cfg dir).1.h5Files := by
  rw [runTdms2h5_getD]
  have hwf0 : WfContainers cfg (⟨[], []⟩ : RunState).h5Files := by
    constructor
    · exact List.nodup_nil
    · intro name c hc
      cases hc
  cases hP : processSlices cfg ⟨[], []⟩ (discoverSlices cfg (dir.getD [])) with
  | mk stP err =>
    have hwf : WfContainers cfg stP.h5Files := by
      have := processSlices_wf cfg ⟨[], []⟩ (discoverSlices cfg (dir.getD [])) hwf0
      rw [hP] at this
      exact this
    cases err with
    | some e =>
      rw [runTdms2h5_eq_of_process_error cfg (dir.getD []) stP e hP]
      exact hwf
    | none =>
      rw [runTdms2h5_eq_of_process_ok cfg (dir.getD []) stP hP]
      exact finalize_wf cfg _ _ hwf

/-- C8: throughout a run, each distinct group name maps to at most one
output container (the registry's names are duplicate-free in every final
state), each registered container was created at
`<output_dir>/<group_name>.h5` with top-level attribute `Version = 3` and a
`TDMSData` subtree carrying `TDMS_GroupName`; and processing a further file
never re-creates or alters an existing container beyond adding slice nodes:
its path, attributes, `TDMSData` attributes, `Index` state and every
already-written node are preserved. -/
theorem c8_one_container_per_group (cfg : Config)
    (dir : Option (List TdmsFileData)) :
    (((runTdms2h5 cfg dir).1.h5Files.map Prod.fst).Nodup ∧
      ∀ name c, alookup name (runTdms2h5 cfg dir).1.h5Files = some c →
        c.filePath = cfg.outputDir ++ "/" ++ name ++ ".h5" ∧
        alookup "Version" c.attrs = some (.int 3) ∧
        alookup "TDMS_GroupName" c.tdmsDataAttrs = some (.str name)) ∧
    ∀ (st : RunState) (f : TdmsFileData) (i : Nat) (name : String) (c : Container),
      alookup name st.h5Files = some c →
      ∃ c', alookup name (processFile cfg st f i).1.h5Files = some c' ∧
        c'.filePath = c.filePath ∧ c'.attrs = c.attrs ∧
        c'.tdmsDataAttrs = c.tdmsDataAttrs ∧
        c'.index = c.index ∧ c'.indexAttrs = c.indexAttrs ∧
        ∀ j n, alookup j c.nodes = some n → alookup j c'.nodes = some n := by
  constructor
  · obtain ⟨hnodup, hprops⟩ := runTdms2h5_wf cfg dir
    refine ⟨hnodup, ?_⟩
    intro name c hc
    obtain ⟨h1, h2, h3⟩ := hprops name c hc
    exact ⟨h1, by rw [h2]; rfl, by rw [h3]; rfl⟩
  · intro st f i name c hc
    obtain ⟨c', hc', hext⟩ := processFile_extends cfg st f i name c hc
    exact ⟨c', hc', hext.1, hext.2.1, hext.2.2.1, hext.2.2.2.1, hext.2.2.2.2.1,
      hext.2.2.2.2.2⟩

/-- A concrete container and one-container state for the C8 witness. -/
def cFix : Container :=
  ⟨"out/A.h5", [("Version", .int 3)], [("TDMS_GroupName", .str "A")],
    [(1, ⟨[], []⟩)], none, []⟩

/-- A concrete one-container run state. -/
def stFix : RunState := ⟨[("A", cFix)], [1]⟩

/-- C8 witness: the invariant instantiated on a small run, plus the
reuse-without-alteration statement applied to a concrete state holding one
container. -/
theorem c8_witness :
    ((((runTdms2h5 cfg0 (some [okFile1])).1.h5Files.map Prod.fst).Nodup ∧
      ∀ name c, alookup name (runTdms2h5 cfg0 (some [okFile1])).1.h5Files = some c →
        c.filePath = cfg0.outputDir ++ "/" ++ name ++ ".h5" ∧
        alookup "Version" c.attrs = some (.int 3) ∧
        alookup "TDMS_GroupName" c.tdmsDataAttrs = some (.str name)) ∧
    ∀ (st : RunState) (f : TdmsFileData) (i : Nat) (name : String) (c : Container),
      alookup name st.h5Files = some c →
      ∃ c', alookup name (processFile cfg0 st f i).1.h5Files = some c' ∧
        c'.filePath = c.filePath ∧ c'.attrs = c.attrs ∧
        c'.tdmsDataAttrs = c.tdmsDataAttrs ∧
        c'.index = c.index ∧ c'.indexAttrs = c.indexAttrs ∧
        ∀ j n, alookup j c.nodes = some n → alookup j c'.nodes = some n) ∧
    ∃ c', alookup "A" (processFile cfg0 stFix okFile2 2).1.h5Files = some c' ∧
      c'.filePath = cFix.filePath ∧
      ∀ n, alookup 1 cFix.nodes = some n → alookup 1 c'.nodes = some n := by
  refine ⟨c8_one_container_per_group cfg0 (some [okFile1]), ?_⟩
  obtain ⟨c', hc', h1, _, _, _, _, hnodes⟩ :=
    (c8_one_container_per_group cfg0 (some [okFile1])).2
      stFix okFile2 2 "A" cFix (by decide)
  exact ⟨c', hc', h1, fun n h => hnodes 1 n h⟩

/-- C10: when a run's already-processed files have produced a slice node at
index `i` in some container, and one more discovered file carries the same
slice index and its first filter-passing group targets that same container,
processing that file raises the duplicate-node error at `create_group`
(keyed by the decimal string of the index, modelled by the index itself),
the run aborts with that error, and the first slice node's contents are
retained unchanged rather than overwritten or merged. -/
theorem c10_duplicate_slice_index (cfg : Config) (files : List TdmsFileData)
    (f2 : TdmsFileData) (i : Nat) (g : TdmsGroup)
    (hproc : (processSlices cfg ⟨[], []⟩ (discoverSlices cfg files)).2 = none)
    (hext : extMatchesTdms f2.ext = true)
    (hsearch : searchPrefixDigits cfg.pre f2.stem = some i)
    (hbg : (fileBitgains f2).toOption.isSome = true)
    (hfind : f2.groups.find? (fun g' => passesFilter cfg.groups g'.name) = some g)
    (hnode : (nodeObs (processSlices cfg ⟨[], []⟩ (discoverSlices cfg files)).1
      g.name i).isSome = true) :
    (runTdms2h5 cfg (some (files ++ [f2]))).2 = some (.duplicateNode i) ∧
    nodeObs (runTdms2h5 cfg (some (files ++ [f2]))).1 g.name i =
      nodeObs (processSlices cfg ⟨[], []⟩ (discoverSlices cfg files)).1 g.name i := by
  cases hP : processSlices cfg ⟨[], []⟩ (discoverSlices cfg files) with
  | mk stP err =>
    rw [hP] at hproc hnode
    simp only at hproc hnode
    subst hproc
    obtain ⟨c, hc, hdup⟩ : ∃ c, alookup g.name stP.h5Files = some c ∧
        (alookup i c.nodes).isSome = true := by
      unfold nodeObs at hnode
      cases hl : alookup g.name stP.h5Files with
      | none => rw [hl] at hnode; cases hnode
      | some c =>
        rw [hl] at hnode
        exact ⟨c, rfl, hnode⟩
    obtain ⟨bgs, hbgs⟩ : ∃ bgs, fileBitgains f2 = .ok bgs := by
      cases hb : fileBitgains f2 with
      | error e => rw [hb] at hbg; cases hbg
      | ok bgs => exact ⟨bgs, rfl⟩
    obtain ⟨bg1, bg2⟩ := bgs
    have hpf : processFile cfg stP f2 i =
        ({ stP with sliceIndices := stP.sliceIndices ++ [i] },
         some (.duplicateNode i)) := by
      simp only [processFile, hbgs]
      exact processGroups_duplicate cfg f2.properties bg1 bg2 i
        { stP with sliceIndices := stP.sliceIndices ++ [i] } f2.groups g hfind c hc hdup
    have hdisc : discoverSlices cfg (files ++ [f2]) =
        discoverSlices cfg files ++ [(f2, i)] := by
      rw [discoverSlices_append, discoverSlices_singleton cfg f2 i hext hsearch]
    have hPS : processSlices cfg ⟨[], []⟩ (discoverSlices cfg (files ++ [f2])) =
        ({ stP with sliceIndices := stP.sliceIndices ++ [i] },
         some (.duplicateNode i)) := by
      rw [hdisc, processSlices_append_ok cfg ⟨[], []⟩ _ _ stP hP]
      simp only [processSlices, hpf]
    rw [runTdms2h5_eq_of_process_error cfg (files ++ [f2]) _ _ hPS]
    exact ⟨rfl, rfl⟩

/-- C10 witness: `Slice1.tdms` and `XSlice1.tdms` both resolve to slice
index 1 and both contain group `A`; the second aborts the run with the
duplicate-node error and the first node is retained. -/
theorem c10_witness :
    (runTdms2h5 cfg0 (some ([okFile1] ++ [dupFile]))).2 =
      some (.duplicateNode 1) ∧
    nodeObs (runTdms2h5 cfg0 (some ([okFile1] ++ [dupFile]))).1 "A" 1 =
      nodeObs (processSlices cfg0 ⟨[], []⟩ (discoverSlices cfg0 [okFile1])).1 "A" 1 :=
  c10_duplicate_slice_index cfg0 [okFile1] dupFile 1 (groupWith "A" 50)
    (by decide) (by decide) (by decide) (by decide) (by decide) (by decide)

/-- C1 counterexample: `Slice1.tdms` writes only container `A` and
`Slice2.tdms` only container `B`.  The claim says container `A`'s `Index`
is then built from exactly the set of slice indices written to `A` (one
row, for slice 1).  The code instead iterates the globally collected,
sorted index list `[1, 2]`, hits the missing node `2` in `A`, raises, and
leaves `A` with a written slice node and no `Index` dataset at all. -/
theorem c1_counterexample :
    ((alookup "A" (runTdms2h5 cfg0 (some [cexA, cexB])).1.h5Files).any
      (fun c => (alookup 1 c.nodes).isSome && c.index.isNone)) = true ∧
    (runTdms2h5 cfg0 (some [cexA, cexB])).2 = some (.missingNode 2) := by
  exact ⟨by decide, by decide⟩

/-- C1 amended: in every run that completes without error and whose
discovered slice indices are distinct, the claim holds: each produced
container's `Index` rows are sorted strictly ascending by slice index,
contain exactly one row per distinct slice index written to that container,
and each row pairs the slice index with the node's `layerThickness` value
and the element count of its `X-Axis` dataset.  (When finalization fails,
the failing container gets no `Index` at all — see the counterexample.) -/
theorem c1_index_of_error_free_run (cfg : Config) (files : List TdmsFileData)
    (hdistinct : ((discoverSlices cfg files).map Prod.snd).Nodup)
    (hok : (runTdms2h5 cfg (some files)).2 = none) :
    ∀ name c, alookup name (runTdms2h5 cfg (some files)).1.h5Files = some c →
      ∃ rows, c.index = some rows ∧
        List.Chain' (· < ·) (rows.map fun r => r.1) ∧
        (∀ i : Nat, (∃ r ∈ rows, r.1 = i) ↔ (alookup i c.nodes).isSome = true) ∧
        ∀ r ∈ rows, ∃ n, alookup r.1 c.nodes = some n ∧
          readLayerThickness n = .ok r.2.1 ∧
          ∃ d, alookup "X-Axis" n.datasets = some d ∧ r.2.2 = d.data.length := by
  obtain ⟨stP, hP, hfin, hrun⟩ := runTdms2h5_ok_decomp cfg files hok
  intro name c hc
  rw [hrun] at hc
  simp only at hc
  have hS : stP.sliceIndices = (discoverSlices cfg files).map Prod.snd := by
    have := processSlices_ok_sliceIndices cfg ⟨[], []⟩ _ stP hP
    simpa using this
  have hSnodup : stP.sliceIndices.Nodup := by
    rw [hS]
    exact hdistinct
  cases hl : alookup name stP.h5Files with
  | none =>
    rw [finalizeContainers_lookup_none _ _ name hl] at hc
    cases hc
  | some c₀ =>
    obtain ⟨rows, hrows, hfl⟩ := finalizeContainers_ok_lookup _ _ hfin name c₀ hl
    rw [hfl] at hc
    injection hc with hc
    subst hc
    obtain ⟨hmap, hcontent⟩ := buildIndexRows_ok hrows
    refine ⟨rows, rfl, ?_, ?_, ?_⟩
    · rw [hmap]
      exact insertionSort_chain_lt hSnodup
    · intro i
      constructor
      · rintro ⟨r, hr, rfl⟩
        obtain ⟨n, hn, _, _⟩ := hcontent r hr
        rw [hn]
        rfl
      · intro hi
        have hcov : NodeKeysCovered stP := by
          have := processSlices_covered cfg ⟨[], []⟩ (discoverSlices cfg files)
            (by intro nm cc hcc j hj; cases hcc)
          rw [hP] at this
          exact this
        have hiS : i ∈ stP.sliceIndices := hcov name c₀ hl i hi
        have hirows : i ∈ rows.map (fun r => r.1) := by
          rw [hmap, insertionSort_mem_iff]
          exact hiS
        obtain ⟨r, hr, hri⟩ := List.mem_map.mp hirows
        exact ⟨r, hr, hri⟩
    · exact hcontent

/-- C1 witness: a clean two-slice, two-container run satisfies the amended
claim. -/
theorem c1_witness :
    ((discoverSlices cfg0 [okFile1, okFile2]).map Prod.snd).Nodup ∧
    (runTdms2h5 cfg0 (some [okFile1, okFile2])).2 = none ∧
    ∀ name c,
      alookup name (runTdms2h5 cfg0 (some [okFile1, okFile2])).1.h5Files = some c →
      ∃ rows, c.index = some rows ∧
        List.Chain' (· < ·) (rows.map fun r => r.1) ∧
        (∀ i : Nat, (∃ r ∈ rows, r.1 = i) ↔ (alookup i c.nodes).isSome = true) ∧
        ∀ r ∈ rows, ∃ n, alookup r.1 c.nodes = some n ∧
          readLayerThickness n = .ok r.2.1 ∧
          ∃ d, alookup "X-Axis" n.datasets = some d ∧ r.2.2 = d.data.length :=
  ⟨by decide, by decide,
   c1_index_of_error_free_run cfg0 [okFile1, okFile2] (by decide) (by decide)⟩

/-- C9 counterexample: two files with distinct slice indices where group
`B`'s slice 1 lacks `layerThickness`.  Processing `[c9f1, c9f2]` registers
container `A` first, so `A` is finalized (and gets its `Index`) before the
failure on `B`; processing `[c9f2, c9f1]` registers `B` first, so the
failure hits before `A` is finalized and `A` gets no `Index`.  The final
contents of container `A` therefore depend on the processing order,
refuting the claim as stated. -/
theorem c9_counterexample :
    ((discoverSlices cfg0 [c9f1, c9f2]).map Prod.snd).Nodup ∧
    List.Perm [c9f2, c9f1] [c9f1, c9f2] ∧
    containerObs (runTdms2h5 cfg0 (some [c9f1, c9f2])).1 "A" ≠
      containerObs (runTdms2h5 cfg0 (some [c9f2, c9f1])).1 "A" := by
  exact ⟨by decide, by decide, by decide⟩

/-- C9 amended: for a fixed set of discovered input slices with distinct
slice indices, any two processing orders under which the conversion
completes without error produce identical final container contents: the
same containers exist, with the same path, attributes, `Index` dataset and
index attributes, and the same slice node (attributes and channel datasets)
at every slice index.  (When a run fails, which containers already received
their `Index` can depend on the processing order — see the
counterexample.) -/
theorem c9_order_independence (cfg : Config) (files₁ files₂ : List TdmsFileData)
    (hperm : files₂.Perm files₁)
    (hdistinct : ((discoverSlices cfg files₁).map Prod.snd).Nodup)
    (hok₁ : (runTdms2h5 cfg (some files₁)).2 = none)
    (hok₂ : (runTdms2h5 cfg (some files₂)).2 = none) :
    ∀ name : String,
      containerObs (runTdms2h5 cfg (some files₁)).1 name =
        containerObs (runTdms2h5 cfg (some files₂)).1 name ∧
      ∀ i : Nat, nodeObs (runTdms2h5 cfg (some files₁)).1 name i =
        nodeObs (runTdms2h5 cfg (some files₂)).1 name i := by
  obtain ⟨st₁, hP₁, hfin₁, hrun₁⟩ := runTdms2h5_ok_decomp cfg files₁ hok₁
  obtain ⟨st₂, hP₂, hfin₂, hrun₂⟩ := runTdms2h5_ok_decomp cfg files₂ hok₂
  obtain ⟨hproc₁, hkeys₁⟩ := processSlices_characterize cfg _ st₁ hP₁
  obtain ⟨hproc₂, hkeys₂⟩ := processSlices_characterize cfg _ st₂ hP₂
  have hpermD : (discoverSlices cfg files₂).Perm (discoverSlices cfg files₁) :=
    hperm.filterMap _
  have hpermW : (runWrites cfg (discoverSlices cfg files₂)).Perm
      (runWrites cfg (discoverSlices cfg files₁)) :=
    hpermD.flatMap_right _
  have hFW : ∀ name i,
      findWrite (runWrites cfg (discoverSlices cfg files₁)) name i =
        findWrite (runWrites cfg (discoverSlices cfg files₂)) name i :=
    fun name i => (findWrite_perm hpermW hkeys₂ name i).symm
  have hS₁ : st₁.sliceIndices = (discoverSlices cfg files₁).map Prod.snd := by
    have := processSlices_ok_sliceIndices cfg ⟨[], []⟩ _ st₁ hP₁
    simpa using this
  have hS₂ : st₂.sliceIndices = (discoverSlices cfg files₂).map Prod.snd := by
    have := processSlices_ok_sliceIndices cfg ⟨[], []⟩ _ st₂ hP₂
    simpa using this
  have hsort : List.insertionSort (· ≤ ·) st₁.sliceIndices =
      List.insertionSort (· ≤ ·) st₂.sliceIndices := by
    rw [hS₁, hS₂]
    exact insertionSort_perm_eq (hpermD.map Prod.snd).symm
  obtain ⟨hnames₁, hconts₁⟩ := hproc₁
  obtain ⟨hnames₂, hconts₂⟩ := hproc₂
  intro name
  rw [hrun₁, hrun₂]
  by_cases hpres : (alookup name st₁.h5Files).isSome = true
  · have hpres₂ : (alookup name st₂.h5Files).isSome = true := by
      rw [hnames₂ name]
      rw [hnames₁ name] at hpres
      obtain ⟨w, hw, hwn⟩ := hpres
      exact ⟨w, hpermW.mem_iff.mpr hw, hwn⟩
    obtain ⟨c₁, hc₁⟩ := Option.isSome_iff_exists.mp hpres
    obtain ⟨c₂, hc₂⟩ := Option.isSome_iff_exists.mp hpres₂
    obtain ⟨hfp₁, hat₁, htd₁, hidx₁, hia₁, hnd₁⟩ := hconts₁ name c₁ hc₁
    obtain ⟨hfp₂, hat₂, htd₂, hidx₂, hia₂, hnd₂⟩ := hconts₂ name c₂ hc₂
    have hnodes_eq : ∀ i, alookup i c₁.nodes = alookup i c₂.nodes := by
      intro i
      rw [hnd₁ i, hnd₂ i, hFW name i]
    obtain ⟨rows₁, hrows₁, hfl₁⟩ := finalizeContainers_ok_lookup
      (List.insertionSort (· ≤ ·) st₁.sliceIndices) st₁.h5Files hfin₁ name c₁ hc₁
    obtain ⟨rows₂, hrows₂, hfl₂⟩ := finalizeContainers_ok_lookup
      (List.insertionSort (· ≤ ·) st₂.sliceIndices) st₂.h5Files hfin₂ name c₂ hc₂
    have hrowseq : rows₁ = rows₂ := by
      have h1 := buildIndexRows_ok_rowsFor hrows₁
      have h2 := buildIndexRows_ok_rowsFor hrows₂
      rw [rowsFor_congr _ hnodes_eq, hsort, h2] at h1
      injection h1 with h1
      exact h1.symm
    constructor
    · simp only [containerObs]
      rw [hfl₁, hfl₂]
      simp only [Option.map_some']
      have hobs : ContainerObs.mk c₁.filePath c₁.attrs c₁.tdmsDataAttrs
          (some rows₁) indexColumnAttrs =
          ContainerObs.mk c₂.filePath c₂.attrs c₂.tdmsDataAttrs
            (some rows₂) indexColumnAttrs := by
        rw [hfp₁, hfp₂, hat₁, hat₂, htd₁, htd₂, hrowseq]
      exact congrArg some hobs
    · intro i
      simp only [nodeObs]
      rw [hfl₁, hfl₂]
      exact hnodes_eq i
  · have habs₁ : alookup name st₁.h5Files = none := by
      cases hl : alookup name st₁.h5Files with
      | none => rfl
      | some c =>
        rw [hl] at hpres
        exact absurd rfl hpres
    have habs₂ : alookup name st₂.h5Files = none := by
      cases hl : alookup name st₂.h5Files with
      | none => rfl
      | some c =>
        have hs : (alookup name st₂.h5Files).isSome = true := by
          rw [hl]
          rfl
        rw [hnames₂ name] at hs
        obtain ⟨w, hw, hwn⟩ := hs
        have : (alookup name st₁.h5Files).isSome = true :=
          (hnames₁ name).mpr ⟨w, hpermW.mem_iff.mp hw, hwn⟩
        exact absurd this hpres
    have hf₁ := finalizeContainers_lookup_none
      (List.insertionSort (· ≤ ·) st₁.sliceIndices) st₁.h5Files name habs₁
    have hf₂ := finalizeContainers_lookup_none
      (List.insertionSort (· ≤ ·) st₂.sliceIndices) st₂.h5Files name habs₂
    constructor
    · simp only [containerObs]
      rw [hf₁, hf₂]
    · intro i
      simp only [nodeObs]
      rw [hf₁, hf₂]

/-- C9 witness: two error-free orderings of the same two slices produce the
same observable contents. -/
theorem c9_witness :
    List.Perm [okFile2, okFile1] [okFile1, okFile2] ∧
    ((discoverSlices cfg0 [okFile1, okFile2]).map Prod.snd).Nodup ∧
    (runTdms2h5 cfg0 (some [okFile1, okFile2])).2 = none ∧
    (runTdms2h5 cfg0 (some [okFile2, okFile1])).2 = none ∧
    ∀ name : String,
      containerObs (runTdms2h5 cfg0 (some [okFile1, okFile2])).1 name =
        containerObs (runTdms2h5 cfg0 (some [okFile2, okFile1])).1 name ∧
      ∀ i : Nat, nodeObs (runTdms2h5 cfg0 (some [okFile1, okFile2])).1 name i =
        nodeObs (runTdms2h5 cfg0 (some [okFile2, okFile1])).1 name i :=
  ⟨by decide, by decide, by decide, by decide,
   c9_order_independence cfg0 [okFile1, okFile2] [okFile2, okFile1]
     (by decide) (by decide) (by decide) (by decide)⟩

end Tdms2h5
